import Mathlib

/-!
Verification development for the GhostVaultRS reconciliation and
reward-lifecycle tracker.  The definitions below are a shallow embedding of
the Rust sources (`src/lib/src/gvdb.rs`, `src/lib/src/daemon_helper.rs`,
`src/ghostvaultd/src/cli_server.rs`, `src/lib/src/task_runner.rs`):
machine integers (u32/u64) become `Nat` with explicit `% 2 ^ 64` where the
width matters, fallible Rust code (RPC calls that can `Err`, `unwrap`s on
values that may be absent, panicking indexing) becomes `Option`, and the
sled key/value trees become association-list stores.  External RPC results
are supplied by an explicit environment record.
-/

namespace GhostVault

/-! ## Big-endian byte encoding of u64 keys

`u64::to_be_bytes` in Rust; sled orders keys bytewise-lexicographically,
so storing reward records under `timestamp.to_be_bytes()` orders them by
numeric timestamp.  `beBytes w n` is the `w`-byte big-endian encoding of
`n` (for `n < 256 ^ w`). -/

def beBytes : Nat → Nat → List Nat
  | 0, _ => []
  | w + 1, n => n / 256 ^ w :: beBytes w (n % 256 ^ w)

/-- The 8-byte big-endian encoding of a u64 value (`u64::to_be_bytes`). -/
def toBeBytes (n : Nat) : List Nat := beBytes 8 (n % 2 ^ 64)

/-- Bytewise lexicographic strict order on byte strings: the order in which
sled iterates keys of a tree. -/
def bytesLt : List Nat → List Nat → Bool
  | _, [] => false
  | [], _ :: _ => true
  | a :: as, b :: bs => decide (a < b) || (decide (a = b) && bytesLt as bs)

theorem beBytes_inj (w : Nat) : ∀ a b : Nat, a < 256 ^ w → b < 256 ^ w →
    beBytes w a = beBytes w b → a = b := by
  induction w with
  | zero =>
    intro a b ha hb _
    simp only [pow_zero, Nat.lt_one_iff] at ha hb
    omega
  | succ w ih =>
    intro a b ha hb h
    simp only [beBytes, List.cons.injEq] at h
    have h1 : a % 256 ^ w = b % 256 ^ w :=
      ih _ _ (Nat.mod_lt _ (Nat.pos_pow_of_pos w (by norm_num)))
        (Nat.mod_lt _ (Nat.pos_pow_of_pos w (by norm_num))) h.2
    have hmul : 256 ^ w * (a / 256 ^ w) = 256 ^ w * (b / 256 ^ w) := by
      rw [h.1]
    have ha' := Nat.div_add_mod a (256 ^ w)
    have hb' := Nat.div_add_mod b (256 ^ w)
    omega

theorem bytesLt_irrefl : ∀ l : List Nat, bytesLt l l = false := by
  intro l
  induction l with
  | nil => rfl
  | cons a as ih => simp [bytesLt, ih]

/-- Numeric order and the sled bytewise order agree on fixed-width
big-endian encodings: justification for modelling the reward ledger as a
tree keyed (and sorted) by the numeric timestamp. -/
theorem beBytes_lt_iff (w : Nat) : ∀ a b : Nat, a < 256 ^ w → b < 256 ^ w →
    (bytesLt (beBytes w a) (beBytes w b) = true ↔ a < b) := by
  induction w with
  | zero =>
    intro a b ha hb
    simp only [pow_zero, Nat.lt_one_iff] at ha hb
    subst ha; subst hb
    simp [beBytes, bytesLt]
  | succ w ih =>
    intro a b ha hb
    have hK : 0 < 256 ^ w := Nat.pos_pow_of_pos w (by norm_num)
    have hmodal : a % 256 ^ w < 256 ^ w := Nat.mod_lt _ hK
    have hmodbl : b % 256 ^ w < 256 ^ w := Nat.mod_lt _ hK
    have hrec := ih (a % 256 ^ w) (b % 256 ^ w) hmodal hmodbl
    have hda := Nat.div_add_mod a (256 ^ w)
    have hdb := Nat.div_add_mod b (256 ^ w)
    simp only [beBytes, bytesLt, Bool.or_eq_true, Bool.and_eq_true,
      decide_eq_true_eq] at *
    constructor
    · rintro (hlt | ⟨heq, htl⟩)
      · have hm := Nat.mul_le_mul_left (256 ^ w) (Nat.succ_le_of_lt hlt)
        rw [Nat.mul_succ] at hm
        omega
      · have hmul : 256 ^ w * (a / 256 ^ w) = 256 ^ w * (b / 256 ^ w) := by
          rw [heq]
        have := hrec.mp htl
        omega
    · intro hab
      rcases Nat.lt_trichotomy (a / 256 ^ w) (b / 256 ^ w) with h | h | h
      · exact Or.inl h
      · refine Or.inr ⟨h, hrec.mpr ?_⟩
        have hmul : 256 ^ w * (a / 256 ^ w) = 256 ^ w * (b / 256 ^ w) := by
          rw [h]
        omega
      · exfalso
        have hm := Nat.mul_le_mul_left (256 ^ w) (Nat.succ_le_of_lt h)
        rw [Nat.mul_succ] at hm
        omega

theorem toBeBytes_inj (a b : Nat) (ha : a < 2 ^ 64) (hb : b < 2 ^ 64) :
    toBeBytes a = toBeBytes b ↔ a = b := by
  have h256 : (256 : Nat) ^ 8 = 2 ^ 64 := by norm_num
  constructor
  · intro h
    have := beBytes_inj 8 (a % 2 ^ 64) (b % 2 ^ 64)
      (by rw [h256]; exact Nat.mod_lt _ (by norm_num))
      (by rw [h256]; exact Nat.mod_lt _ (by norm_num)) h
    rwa [Nat.mod_eq_of_lt ha, Nat.mod_eq_of_lt hb] at this
  · intro h; rw [h]

theorem toBeBytes_lt_iff (a b : Nat) (ha : a < 2 ^ 64) (hb : b < 2 ^ 64) :
    bytesLt (toBeBytes a) (toBeBytes b) = true ↔ a < b := by
  have h256 : (256 : Nat) ^ 8 = 2 ^ 64 := by norm_num
  unfold toBeBytes
  rw [Nat.mod_eq_of_lt ha, Nat.mod_eq_of_lt hb]
  exact beBytes_lt_iff 8 a b (by omega) (by omega)

/-! ## String-keyed sled trees

`new_stake_status`, `zap_status_db` and `tg_bot_queue` are sled trees whose
keys in the code are always txid bytes (or a decimal timestamp string for
one-off bot messages); we model them as association lists with
first-match lookup, in-place replacement and filtering removal. -/

def sget {α : Type} : List (String × α) → String → Option α
  | [], _ => none
  | e :: rest, k => if e.1 = k then some e.2 else sget rest k

def sset {α : Type} : List (String × α) → String → α → List (String × α)
  | [], k, v => [(k, v)]
  | e :: rest, k, v =>
    if e.1 = k then (k, v) :: rest else e :: sset rest k v

def sdel {α : Type} : List (String × α) → String → List (String × α)
  | [], _ => []
  | e :: rest, k => if e.1 = k then sdel rest k else e :: sdel rest k

theorem sget_sset_same {α : Type} (s : List (String × α)) (k : String)
    (v : α) : sget (sset s k v) k = some v := by
  induction s with
  | nil => simp [sget, sset]
  | cons e rest ih =>
    by_cases h : e.1 = k
    · simp [sset, h, sget]
    · simp [sset, h, sget, ih]

theorem sget_sset_other {α : Type} (s : List (String × α)) (k k' : String)
    (v : α) (hne : k ≠ k') : sget (sset s k v) k' = sget s k' := by
  have hne' : k' ≠ k := Ne.symm hne
  induction s with
  | nil => simp [sget, sset, hne]
  | cons e rest ih =>
    by_cases h : e.1 = k
    · simp [sset, h, sget, hne, hne']
    · by_cases h2 : e.1 = k'
      · simp [sset, h, sget, h2, hne']
      · simp [sset, h, sget, h2, ih]

theorem sget_sdel_same {α : Type} (s : List (String × α)) (k : String) :
    sget (sdel s k) k = none := by
  induction s with
  | nil => simp [sget, sdel]
  | cons e rest ih =>
    by_cases h : e.1 = k
    · simp [sdel, h, ih]
    · simp [sdel, h, sget, ih]

theorem sget_sdel_other {α : Type} (s : List (String × α)) (k k' : String)
    (hne : k ≠ k') : sget (sdel s k) k' = sget s k' := by
  have hne' : k' ≠ k := Ne.symm hne
  induction s with
  | nil => simp [sget, sdel]
  | cons e rest ih =>
    by_cases h : e.1 = k
    · have h2 : e.1 ≠ k' := by rw [h]; exact hne
      simp [sdel, h, sget, h2, ih, hne]
    · by_cases h2 : e.1 = k'
      · simp [sdel, h, sget, h2, hne']
      · simp [sdel, h, sget, h2, ih]

/-! ## The reward ledger tree

`rewards_ts_index` is a sled tree keyed by `timestamp.to_be_bytes()`.  By
`toBeBytes_lt_iff` the sled bytewise key order coincides with numeric
order of the timestamps, so we model the tree as an association list
sorted by strictly increasing numeric key; `rlast` models
`Tree::last()` (the entry with the greatest key) and `rset` models
`Tree::insert` (which replaces the value if the key is present). -/

def rget {α : Type} : List (Nat × α) → Nat → Option α
  | [], _ => none
  | e :: rest, k => if e.1 = k then some e.2 else rget rest k

def rset {α : Type} : List (Nat × α) → Nat → α → List (Nat × α)
  | [], k, v => [(k, v)]
  | e :: rest, k, v =>
    if k < e.1 then (k, v) :: e :: rest
    else if e.1 = k then (k, v) :: rest
    else e :: rset rest k v

def rdel {α : Type} : List (Nat × α) → Nat → List (Nat × α)
  | [], _ => []
  | e :: rest, k => if e.1 = k then rdel rest k else e :: rdel rest k

/-- `Tree::last()`: on a list sorted by ascending key this is the entry
with the greatest key. -/
def rlast {α : Type} (s : List (Nat × α)) : Option (Nat × α) :=
  s.getLast?

/-- Keys strictly ascending: the shape sled maintains for any tree. -/
def RSorted {α : Type} (s : List (Nat × α)) : Prop :=
  List.Pairwise (fun a b => a.1 < b.1) s

/-- Every entry of `rset s k v` is either the new entry or an entry of
`s`. -/
theorem rset_mem {α : Type} (s : List (Nat × α)) (k : Nat) (v : α)
    (y : Nat × α) (hy : y ∈ rset s k v) : y = (k, v) ∨ y ∈ s := by
  induction s with
  | nil => simpa [rset] using hy
  | cons e rest ih =>
    rcases Nat.lt_trichotomy k e.1 with h | h | h
    · simp only [rset, h, if_true, List.mem_cons] at hy
      simpa [List.mem_cons] using hy
    · simp only [rset, h.symm ▸ Nat.lt_irrefl e.1, if_false, h.symm,
        if_true, List.mem_cons] at hy
      rcases hy with hy | hy
      · exact Or.inl hy
      · exact Or.inr (List.mem_cons_of_mem e hy)
    · have h1 : ¬ k < e.1 := by omega
      have h2 : e.1 ≠ k := by omega
      simp only [rset, h1, if_false, h2, List.mem_cons] at hy
      rcases hy with hy | hy
      · exact Or.inr (hy ▸ List.mem_cons_self e rest)
      · rcases ih hy with hy | hy
        · exact Or.inl hy
        · exact Or.inr (List.mem_cons_of_mem e hy)

/-- `rdel s k` is a sublist of `s`. -/
theorem rdel_sublist {α : Type} (s : List (Nat × α)) (k : Nat) :
    List.Sublist (rdel s k) s := by
  induction s with
  | nil => simp [rdel]
  | cons e rest ih =>
    by_cases h : e.1 = k
    · simpa [rdel, h] using ih.cons e
    · simpa [rdel, h] using ih.cons₂ e

theorem rget_rset_same {α : Type} (s : List (Nat × α)) (k : Nat) (v : α) :
    rget (rset s k v) k = some v := by
  induction s with
  | nil => simp [rget, rset]
  | cons e rest ih =>
    rcases Nat.lt_trichotomy k e.1 with h | h | h
    · simp [rset, h, rget]
    · simp [rset, h.symm, rget, Nat.lt_irrefl]
    · have h1 : ¬ k < e.1 := by omega
      have h2 : e.1 ≠ k := by omega
      simp [rset, h1, h2, rget, ih]

theorem rget_cons {α : Type} (e : Nat × α) (rest : List (Nat × α))
    (k : Nat) : rget (e :: rest) k = if e.1 = k then some e.2 else
      rget rest k := by
  cases e
  rfl

theorem rget_rset_other {α : Type} (s : List (Nat × α)) (k k' : Nat)
    (v : α) (hne : k ≠ k') : rget (rset s k v) k' = rget s k' := by
  induction s with
  | nil =>
    show (if k = k' then some v else none) = none
    rw [if_neg hne]
  | cons e rest ih =>
    rcases Nat.lt_trichotomy k e.1 with h | h | h
    · have h0 : rset (e :: rest) k v = (k, v) :: e :: rest := by
        simp [rset, h]
      rw [h0]
      show (if k = k' then some v else rget (e :: rest) k') =
        rget (e :: rest) k'
      rw [if_neg hne]
    · have h1 : ¬ k < e.1 := by omega
      have h0 : rset (e :: rest) k v = (k, v) :: rest := by
        simp [rset, h1, h]
      rw [h0]
      show (if k = k' then some v else rget rest k') = rget (e :: rest) k'
      rw [if_neg hne, rget_cons, if_neg (show ¬ e.1 = k' by omega)]
    · have h1 : ¬ k < e.1 := by omega
      have h2 : e.1 ≠ k := by omega
      have h0 : rset (e :: rest) k v = e :: rset rest k v := by
        simp [rset, h1, h2]
      rw [h0, rget_cons, rget_cons, ih]

theorem rget_rdel_same {α : Type} (s : List (Nat × α)) (k : Nat) :
    rget (rdel s k) k = none := by
  induction s with
  | nil => simp [rget, rdel]
  | cons e rest ih =>
    by_cases h : e.1 = k
    · simp [rdel, h, ih]
    · simp [rdel, h, rget, ih]

theorem rget_rdel_other {α : Type} (s : List (Nat × α)) (k k' : Nat)
    (hne : k ≠ k') : rget (rdel s k) k' = rget s k' := by
  induction s with
  | nil => simp [rget, rdel]
  | cons e rest ih =>
    by_cases h : e.1 = k
    · have h2 : ¬ e.1 = k' := by omega
      have h0 : rdel (e :: rest) k = rdel rest k := by simp [rdel, h]
      rw [h0, ih, rget_cons, if_neg h2]
    · have h0 : rdel (e :: rest) k = e :: rdel rest k := by simp [rdel, h]
      rw [h0, rget_cons, rget_cons, ih]

theorem rset_sorted {α : Type} (s : List (Nat × α)) (k : Nat) (v : α)
    (hs : RSorted s) : RSorted (rset s k v) := by
  induction s with
  | nil => simp [rset, RSorted]
  | cons e rest ih =>
    simp only [RSorted, List.pairwise_cons] at hs
    rcases Nat.lt_trichotomy k e.1 with h | h | h
    · simp only [rset, h, if_true, RSorted, List.pairwise_cons]
      refine ⟨?_, ?_, hs.2⟩
      · intro y hy
        rcases List.mem_cons.mp hy with hy | hy
        · subst hy; exact h
        · have := hs.1 y hy; omega
      · exact hs.1
    · simp only [rset, h.symm ▸ Nat.lt_irrefl e.1, if_false, h.symm,
        if_true, RSorted, List.pairwise_cons]
      refine ⟨fun y hy => ?_, hs.2⟩
      have := hs.1 y hy; omega
    · have h1 : ¬ k < e.1 := by omega
      have h2 : e.1 ≠ k := by omega
      simp only [rset, h1, if_false, h2, RSorted, List.pairwise_cons]
      refine ⟨fun y hy => ?_, ih hs.2⟩
      rcases rset_mem rest k v y hy with hy | hy
      · subst hy; exact h
      · exact hs.1 y hy

theorem rdel_sorted {α : Type} (s : List (Nat × α)) (k : Nat)
    (hs : RSorted s) : RSorted (rdel s k) :=
  List.Pairwise.sublist (rdel_sublist s k) hs

/-- On a sorted ledger a key smaller than every stored key is absent. -/
theorem rget_none_of_lt {α : Type} (s : List (Nat × α)) (k : Nat)
    (h : ∀ f ∈ s, k < f.1) : rget s k = none := by
  induction s with
  | nil => simp [rget]
  | cons e rest ih =>
    have he := h e (List.mem_cons_self e rest)
    have h2 : e.1 ≠ k := by omega
    simp only [rget, h2, if_false]
    exact ih (fun f hf => h f (List.mem_cons_of_mem e hf))

/-- If every key in the ledger is smaller than `k`, inserting at `k`
appends at the end (the shape reward ingestion produces when stakes
arrive in increasing block-time order). -/
theorem rset_append {α : Type} (s : List (Nat × α)) (k : Nat) (v : α)
    (h : ∀ e ∈ s, e.1 < k) : rset s k v = s ++ [(k, v)] := by
  induction s with
  | nil => simp [rset]
  | cons e rest ih =>
    have he : e.1 < k := h e (List.mem_cons_self e rest)
    have h1 : ¬ k < e.1 := by omega
    have h2 : e.1 ≠ k := by omega
    simp only [rset, h1, if_false, h2, List.cons_append, List.cons.injEq,
      true_and]
    exact ih (fun f hf => h f (List.mem_cons_of_mem e hf))

/-- Inserting an already-present key leaves the number of ledger entries
unchanged: sled `insert` replaces the value under the key. -/
theorem rset_length_of_mem {α : Type} (s : List (Nat × α)) (k : Nat)
    (v : α) {v0 : α} (hs : RSorted s) (h : rget s k = some v0) :
    (rset s k v).length = s.length := by
  induction s with
  | nil => simp [rget] at h
  | cons e rest ih =>
    simp only [RSorted, List.pairwise_cons] at hs
    by_cases he : e.1 = k
    · have h1 : ¬ k < e.1 := by omega
      simp [rset, h1, he]
    · rcases Nat.lt_trichotomy k e.1 with hlt | heq | hgt
      · exfalso
        simp only [rget, he, if_false] at h
        have : rget rest k = none := by
          refine rget_none_of_lt rest k (fun f hf => ?_)
          have := hs.1 f hf; omega
        rw [this] at h
        exact Option.noConfusion h
      · omega
      · have h1 : ¬ k < e.1 := by omega
        simp only [rget, he, if_false] at h
        simp [rset, h1, he, ih hs.2 h]

/-! ## Data model (src/lib/src/gvdb.rs, src/lib/src/constants.rs) -/

def AGVR_ACTIVATION_HEIGHT : Nat := 591621

def DEV_FUND_ADDRESS : List String :=
  ["GgtiuDqVxAzg47yW7oSMmophe3tU8qoE1f",
   "GQJ4unJi6hAzd881YM17rEzPNWaWZ4AR3f",
   "Ga7ECMeX8QUJTTvf9VUnYgTQUFxPChDqqU",
   "GQtToV2LnHGhHy4LRVapLDMaukdDgzZZZV",
   "GSo4N8Q4QTHoC2eWnDQkm86Vs1FhcMGE3Y"]

def MAX_TX_FEES : Nat := 25000000

structure RewardsDB where
  height : Nat
  timestamp : Nat
  block_hash : String
  txid : String
  reward : Nat
  agvr_reward : Nat
  all_time_reward : Nat
  all_time_agvr_reward : Nat
  address : String
  is_coldstake : Bool
  deriving DecidableEq, Repr

structure DaemonStatusDB where
  height : Nat
  block_hash : String
  deriving DecidableEq, Repr

structure ZapStatusDB where
  txid : String
  amount : Nat
  confirmations : Nat
  first_notice : Bool
  deriving DecidableEq, Repr

structure NewStakeStatusDB where
  txid : String
  confirmations : Nat
  timestamp : Nat
  tg_msg_id : Option Int
  deriving DecidableEq, Repr

structure TgBotQueueDB where
  timestamp : Nat
  header : String
  msg : Option String
  code_block : Option String
  url : Option (List String)
  msg_type : String
  reward_txid : Option String
  msg_to_delete : Option Int
  deriving DecidableEq, Repr

structure Task where
  id : Nat
  name : String
  run_interval : Int
  next_run : Int
  min_payout : Option Nat
  task_running : Bool
  deriving DecidableEq, Repr

/-- The sled database `GVDB`: the trees the reconciliation claims touch.
The reward ledger is keyed by the numeric timestamp (see the
`toBeBytes` lemmas for why that matches the bytewise key order of
`timestamp.to_be_bytes()`); the status/queue trees are keyed by txid
strings. -/
structure GVDB where
  rewards_ts_index : List (Nat × RewardsDB)
  new_stake_status : List (String × NewStakeStatusDB)
  zap_status_db : List (String × ZapStatusDB)
  tg_bot_queue : List (String × TgBotQueueDB)
  daemon_status_db : Option DaemonStatusDB
  deriving DecidableEq, Repr

/-- A durable write against the store, in program order.  The reward keys
carry the actual 8-byte big-endian encoding used by the code. -/
inductive Effect where
  | set_daemon_status (s : DaemonStatusDB)
  | set_reward (key : List Nat) (r : RewardsDB)
  | remove_reward (key : List Nat)
  | set_new_stake_status (key : String) (s : NewStakeStatusDB)
  | remove_new_stake_status (key : String)
  | set_zap_status (key : String) (z : ZapStatusDB)
  | remove_zap_status (key : String)
  | set_tg_bot_queue (key : String) (m : TgBotQueueDB)
  | flush_rewards
  deriving DecidableEq, Repr

def GVDB.set_reward (db : GVDB) (reward : RewardsDB) : GVDB × Effect :=
  ({ db with rewards_ts_index :=
      (rset db.rewards_ts_index reward.timestamp reward) },
   .set_reward (toBeBytes reward.timestamp) reward)

def GVDB.remove_reward (db : GVDB) (ts : Nat) : GVDB × Effect :=
  ({ db with rewards_ts_index := rdel db.rewards_ts_index ts },
   .remove_reward (toBeBytes ts))

def GVDB.set_new_stake_status (db : GVDB) (key : String)
    (status : NewStakeStatusDB) : GVDB × Effect :=
  ({ db with new_stake_status := sset db.new_stake_status key status },
   .set_new_stake_status key status)

def GVDB.remove_new_stake_status (db : GVDB) (key : String) :
    GVDB × Effect :=
  ({ db with new_stake_status := sdel db.new_stake_status key },
   .remove_new_stake_status key)

def GVDB.set_zap_status (db : GVDB) (key : String) (z : ZapStatusDB) :
    GVDB × Effect :=
  ({ db with zap_status_db := sset db.zap_status_db key z },
   .set_zap_status key z)

def GVDB.remove_zap_status (db : GVDB) (key : String) : GVDB × Effect :=
  ({ db with zap_status_db := sdel db.zap_status_db key },
   .remove_zap_status key)

def GVDB.set_tg_bot_queue (db : GVDB) (key : String) (m : TgBotQueueDB) :
    GVDB × Effect :=
  ({ db with tg_bot_queue := sset db.tg_bot_queue key m },
   .set_tg_bot_queue key m)

def GVDB.get_tg_bot_queue (db : GVDB) (key : String) :
    Option TgBotQueueDB :=
  sget db.tg_bot_queue key

def GVDB.set_daemon_status (db : GVDB) (s : DaemonStatusDB) :
    GVDB × Effect :=
  ({ db with daemon_status_db := some s }, .set_daemon_status s)

/-! ## Node transactions as seen over RPC

Typed image of the JSON documents `gettransaction` returns; `Option`
marks fields the code reads with a default or whose absence it treats
as an error. -/

structure Vin where
  txid : String
  vout : Nat
  deriving DecidableEq, Repr

structure ScriptPubKey where
  addresses : Option (List String)
  stakeaddresses : Bool
  deriving DecidableEq, Repr

structure Vout where
  valueSat : Nat
  vtype : Option String
  scriptPubKey : Option ScriptPubKey
  gvr_fund_cfwd : Bool
  deriving DecidableEq, Repr

structure DecodedTx where
  vin : List Vin
  vout : List Vout
  deriving DecidableEq, Repr

structure TxDetailEntry where
  category : String
  deriving DecidableEq, Repr

structure TxInfo where
  txid : String
  blocktime : Nat
  blockheight : Nat
  blockhash : String
  confirmations : Option Int
  details : List TxDetailEntry
  decoded : DecodedTx
  deriving DecidableEq, Repr

/-- External collaborators: the node RPC results the reconciliation
code consumes, plus the wall clock.  `none` models a failed RPC call
(`Err`) or a missing document. -/
structure Env where
  get_transaction : String → Option TxInfo
  getblock_height : String → Option Nat
  is_syncing : Option Bool
  now : Nat

/-! ## Reward computation (daemon_helper.rs, `get_block_reward`) -/

/-- `get_addr_from_vout`: first entry of `scriptPubKey.addresses`, or the
empty string when anything along that path is missing. -/
def get_addr_from_vout (vout : Vout) : String :=
  match vout.scriptPubKey with
  | none => ""
  | some spk =>
    match spk.addresses with
    | none => ""
    | some addrs =>
      match addrs.head? with
      | some a => a
      | none => ""

/-- The input-resolution loop of `get_block_reward`: accumulates
`in_amount` from each input's previous output and fixes the stake
kernel address (first resolved input wins; a failed previous-tx fetch
overwrites the kernel with the address of output 1 of the stake tx
itself).  `none` models the panics on a missing previous output /
missing output 1. -/
def scan_vins (env : Env) (vout_array : List Vout) :
    List Vin → Nat → String → Option (Nat × String)
  | [], in_amount, stake_kernel => some (in_amount, stake_kernel)
  | vin :: rest, in_amount, stake_kernel =>
    match env.get_transaction vin.txid with
    | some prev_tx => do
      let pv ← prev_tx.decoded.vout.get? vin.vout
      let stake_kernel := if stake_kernel = "" then get_addr_from_vout pv
        else stake_kernel
      scan_vins env vout_array rest (in_amount + pv.valueSat) stake_kernel
    | none => do
      let v1 ← vout_array.get? 1
      scan_vins env vout_array rest in_amount (get_addr_from_vout v1)

def blacklist_type : List String := ["data", "anon", "blind"]

/-- The output-summing loop of `get_block_reward`: sums `valueSat` over
outputs whose type is not blacklisted and whose address is not a
dev-fund address, and detects a cold stake via the presence of
`scriptPubKey.stakeaddresses` on a counted output. -/
def vout_total_cold (vout_array : List Vout) : Nat × Bool :=
  vout_array.foldl
    (fun acc vout =>
      let vout_type := vout.vtype.getD ""
      if blacklist_type.contains vout_type then acc
      else if DEV_FUND_ADDRESS.contains (get_addr_from_vout vout) then acc
      else
        (acc.1 + vout.valueSat,
         acc.2 || (vout.scriptPubKey.map (·.stakeaddresses)).getD false))
    (0, false)

structure BlockReward where
  total_reward : Nat
  stake_reward : Nat
  agvr_reward : Nat
  stake_kernel : String
  is_coldstake : Bool
  deriving DecidableEq, Repr

/-- u64 subtraction as the Rust code performs it, with no underflow
guard: `none` models the abort when the subtrahend exceeds the
minuend. -/
def checked_sub (a b : Nat) : Option Nat :=
  if b ≤ a then some (a - b) else none

/-- AGVR (secondary network-fund reward) eligibility: only at or past
the activation height, and only when output 0 lacks the
`gvr_fund_cfwd` marker field (daemon_helper.rs lines 1383-1387). -/
def compute_is_agvr (vout_array : List Vout) (height : Nat) :
    Option Bool :=
  if height < AGVR_ACTIVATION_HEIGHT then some false
  else do
    let v0 ← vout_array.get? 0
    pure (!v0.gvr_fund_cfwd)

/-- AGVR reward amount (daemon_helper.rs lines 1389-1401): when eligible,
the value of output index 1 if output 1's address equals the stake
kernel, else the value of output index 2. -/
def compute_agvr_reward (vout_array : List Vout) (stake_kernel : String)
    (is_agvr : Bool) : Option Nat :=
  if !is_agvr then some 0
  else do
    let v1 ← vout_array.get? 1
    let vout_addr := get_addr_from_vout v1
    let agvr_vout : Nat := if vout_addr = stake_kernel then 1 else 2
    let va ← vout_array.get? agvr_vout
    pure va.valueSat

/-- `get_block_reward(txid, height)` (daemon_helper.rs lines 1326-1449).
The final `stake_reward = vout_total - in_amount - agvr_reward` is the
unguarded u64 subtraction of the source, embedded via `checked_sub`. -/
def get_block_reward (env : Env) (txid : String) (height : Nat) :
    Option BlockReward := do
  let tx_details ← env.get_transaction txid
  let tx_vin := tx_details.decoded.vin
  let vout_array := tx_details.decoded.vout
  let (in_amount, stake_kernel) ← scan_vins env vout_array tx_vin 0 ""
  let is_agvr ← compute_is_agvr vout_array height
  let agvr_reward ← compute_agvr_reward vout_array stake_kernel is_agvr
  let vt := vout_total_cold vout_array
  let d ← checked_sub vt.1 in_amount
  let stake_reward ← checked_sub d agvr_reward
  let total_reward := agvr_reward + stake_reward
  pure { total_reward, stake_reward, agvr_reward := agvr_reward,
         stake_kernel, is_coldstake := vt.2 }

/-! ## Reward ingestion (daemon_helper.rs, `process_stake_transaction`) -/

/-- `process_stake_transaction` (daemon_helper.rs lines 1261-1324): compute
the block reward, read the ledger entry with the greatest key for the
prior cumulative totals, build the new `RewardsDB` record, create the
paired `NewStakeStatusDB` when confirmations are at most 100, and persist
the record keyed by the transaction's block time. -/
def process_stake_transaction (env : Env) (tx : TxInfo) (db : GVDB) :
    Option (GVDB × RewardsDB × List Effect) := do
  let timestamp := tx.blocktime
  let height := tx.blockheight % 2 ^ 32
  let block_hash := tx.blockhash
  let txid := tx.txid
  let block_reward_details ← get_block_reward env txid height
  let reward := block_reward_details.stake_reward
  let agvr_reward := block_reward_details.agvr_reward
  let address := block_reward_details.stake_kernel
  let is_coldstake := block_reward_details.is_coldstake
  let last_stake_opt := rlast db.rewards_ts_index
  let (all_time_reward, all_time_agvr_reward) :=
    match last_stake_opt with
    | some (_, stake_info) =>
      (stake_info.all_time_reward + reward,
       stake_info.all_time_agvr_reward + agvr_reward)
    | none => (reward, agvr_reward)
  let final_reward : RewardsDB :=
    { height, timestamp, block_hash, txid, reward, agvr_reward,
      all_time_reward, all_time_agvr_reward, address, is_coldstake }
  let confirms : Nat ←
    match tx.confirmations with
    | some c => if c < 0 then none else some c.toNat
    | none => some 0
  let (db, effs) :=
    if confirms ≤ 100 then
      let stake_item : NewStakeStatusDB :=
        { txid, timestamp, confirmations := confirms % 2 ^ 32,
          tg_msg_id := none }
      let (db, e) := db.set_new_stake_status txid stake_item
      (db, [e])
    else (db, ([] : List Effect))
  let (db, e2) := db.set_reward final_reward
  pure (db, final_reward, effs ++ [e2])

/-! ## Stake reconciliation (cli_server.rs, `process_rewards_status`) -/

/-- Display of `convert_from_sat(amount)` inside queued bot messages.
The code renders `amount as f64 / 1e8`; the decimal float rendering is
irrelevant to every claim (only which messages are queued matters), so
the amount is displayed via its integer satoshi value. -/
def sat_display (value : Nat) : String := toString value

/-- Loop body of `process_rewards_status` (cli_server.rs lines
1386-1464) for one `NewStakeStatusDB` entry.  `none` models the panic on
a present-but-negative confirmation count. -/
def process_rewards_entry (env : Env) (tg_bot_active : Bool)
    (acc : GVDB × List Effect) (entry : String × NewStakeStatusDB) :
    Option (GVDB × List Effect) := do
  let (db, effs) := acc
  let (key, stake_status) := entry
  let txid := stake_status.txid
  match env.get_transaction txid with
  | none =>
    let (db, e1) := db.remove_new_stake_status key
    let (db, e2) := db.remove_reward stake_status.timestamp
    pure (db, effs ++ [e1, e2])
  | some tx_details =>
    let invalid : Bool :=
      match tx_details.details.head? with
      | none => true
      | some d0 => d0.category ≠ "stake"
    if invalid then
      let (db, e1) := db.remove_new_stake_status key
      let (db, e2) := db.remove_reward stake_status.timestamp
      let (db, effs2) :=
        if tg_bot_active then
          let timestamp := env.now
          let tg_queue : TgBotQueueDB :=
            { timestamp, header := "👻 Stake removed! 👻", msg := none,
              code_block := none, url := none,
              msg_type := "stake_removal", reward_txid := none,
              msg_to_delete := stake_status.tg_msg_id }
          let (db, e3) := db.set_tg_bot_queue (toString timestamp) tg_queue
          (db, [e3])
        else (db, ([] : List Effect))
      pure (db, effs ++ [e1, e2] ++ effs2)
    else do
      let confirms : Nat ←
        match tx_details.confirmations with
        | some c => if c < 0 then none else some c.toNat
        | none => some 0
      let stake_status :=
        { stake_status with confirmations := confirms % 2 ^ 32 }
      if 100 < confirms then
        let (db, e1) := db.remove_new_stake_status key
        pure (db, effs ++ [Effect.flush_rewards, e1])
      else
        let (db, e1) := db.set_new_stake_status key stake_status
        pure (db, effs ++ [e1])

/-- `process_rewards_status`: fold the loop body over the entries of the
`new_stake_status` tree. -/
def process_rewards_status (env : Env) (tg_bot_active : Bool)
    (db : GVDB) : Option (GVDB × List Effect) :=
  db.new_stake_status.foldlM (process_rewards_entry env tg_bot_active)
    (db, [])

/-! ## Zap reconciliation (cli_server.rs, `process_zap_status`) -/

/-- The "now staking" bot message the maturity path enqueues. -/
def zap_now_staking_msg (timestamp : Nat) (amount : Nat) :
    TgBotQueueDB :=
  { timestamp, header := "👻 Zap Now Staking! 👻",
    msg := some ("The deposit of " ++ sat_display amount
      ++ " GHOST in your GhostVault is now staking!"),
    code_block := none, url := none, msg_type := "zap",
    reward_txid := none, msg_to_delete := none }

/-- The first-notice "new zap detected" bot message. -/
def new_zap_detected_msg (timestamp : Nat) (amount : Nat)
    (txid : String) : TgBotQueueDB :=
  { timestamp, header := "👻 New Zap Detected! 👻",
    msg := some ("New deposit of " ++ sat_display amount
      ++ " GHOST is in your GhostVault!"),
    code_block := none,
    url := some ["https://ghostscan.io/tx/" ++ txid ++ "/"],
    msg_type := "zap", reward_txid := none, msg_to_delete := none }

/-- Loop body of `process_zap_status` (cli_server.rs lines 1469-1564) for
one `ZapStatusDB` entry.  `none` models the `unwrap` panic when the
transaction re-fetch fails. -/
def process_zap_entry (env : Env) (tg_bot_active : Bool)
    (acc : GVDB × List Effect) (entry : String × ZapStatusDB) :
    Option (GVDB × List Effect) := do
  let (db, effs) := acc
  let (key, zap_status) := entry
  let txid := zap_status.txid
  let tx_details ← env.get_transaction txid
  let confirms : Int := tx_details.confirmations.getD 0
  if confirms < 0 then
    let (db, e) := db.remove_zap_status key
    pure (db, effs ++ [e])
  else
    let timestamp := env.now
    if 225 ≤ confirms then
      let (db, effs2) :=
        if tg_bot_active then
          let tg_queue := zap_now_staking_msg timestamp zap_status.amount
          let in_tg_queue := db.get_tg_bot_queue key
          if in_tg_queue.isNone then
            let (db, e) := db.set_tg_bot_queue key tg_queue
            (db, [e])
          else (db, ([] : List Effect))
        else (db, ([] : List Effect))
      let (db, e2) := db.remove_zap_status key
      pure (db, effs ++ effs2 ++ [e2])
    else
      let zap_status :=
        { zap_status with confirmations := confirms.toNat % 2 ^ 32 }
      if tg_bot_active then
        let in_msg_que := (db.get_tg_bot_queue key).isSome
        let tg_queue :=
          new_zap_detected_msg timestamp zap_status.amount txid
        if !zap_status.first_notice && !in_msg_que then
          let (db, e1) := db.set_tg_bot_queue txid tg_queue
          let zap_status := { zap_status with first_notice := true }
          let (db, e2) := db.set_zap_status txid zap_status
          let (db, e3) := db.set_zap_status key zap_status
          pure (db, effs ++ [e1, e2, e3])
        else
          let (db, e3) := db.set_zap_status key zap_status
          pure (db, effs ++ [e3])
      else
        let (db, e3) := db.set_zap_status key zap_status
        pure (db, effs ++ [e3])

/-- `process_zap_status`: fold the loop body over the entries of the
`zap_status_db` tree. -/
def process_zap_status (env : Env) (tg_bot_active : Bool) (db : GVDB) :
    Option (GVDB × List Effect) :=
  db.zap_status_db.foldlM (process_zap_entry env tg_bot_active) (db, [])

/-! ## The reconciler state machine (cli_server.rs, `new_block`) -/

structure ServerState where
  online : Bool
  synced : Bool
  good_chain : Bool
  available : Bool
  best_block : Nat
  best_block_hash : String
  cycle : Nat
  deriving DecidableEq, Repr

/-- `daemon_ready()` (cli_server.rs lines 296-302). -/
def daemon_ready (s : ServerState) : Bool :=
  s.online && s.synced && s.good_chain && s.available

/-- `new_block` (cli_server.rs lines 1848-1878): no-op when the hash
equals the current `best_block_hash`; otherwise fetch the block height,
persist the `DaemonStatusDB` checkpoint, run the two reconciliation
passes when `daemon_ready`, and update the in-memory chain state. -/
def new_block (env : Env) (tg_bot_active : Bool) (st : ServerState)
    (db : GVDB) (nb : String) :
    Option (ServerState × GVDB × List Effect) :=
  if nb = st.best_block_hash then some (st, db, [])
  else do
    let block_height ← env.getblock_height nb
    let block_height := block_height % 2 ^ 32
    let cycle := (st.cycle + 1) % 2 ^ 32
    let block_hash := nb
    let new_status : DaemonStatusDB := { height := block_height, block_hash }
    let synced ← env.is_syncing.map (!·)
    let (db, e1) := db.set_daemon_status new_status
    let is_ready := daemon_ready st
    let (db, effs) ←
      if is_ready then do
        let (db, effZ) ← process_zap_status env tg_bot_active db
        let (db, effR) ← process_rewards_status env tg_bot_active db
        pure (db, effZ ++ effR)
      else pure (db, ([] : List Effect))
    let st := { st with best_block := block_height,
                        best_block_hash := nb,
                        synced := synced, cycle := cycle }
    pure (st, db, e1 :: effs)

/-! ## Reward payout batching (daemon_helper.rs, `send_ghost` lines
1537-1663 and `zap_ghost` lines 1665-1803)

The two functions run a textually identical input-batching loop; only
the output construction differs (plain address output vs cold-staking
script output), which the fee/commit oracles absorb.  Monetary amounts
and fees are f64 in the source; the loop only adds amounts and compares
fees, which we embed exactly over `Rat` (the comparisons and the
claims are insensitive to binary-float rounding). -/

def convert_from_sat (value : Nat) : Rat := (value : Rat) / 100000000

def precise (input : Rat) : Rat :=
  ((round (input * 100000000) : Int) : Rat) / 100000000

structure Unspent where
  amount : Rat
  txid : String
  vout : Nat
  safe : Bool
  spendable : Bool
  deriving DecidableEq, Repr

/-- One dry-run fee estimate made by the loop, and whether the batch was
committed right after it. -/
structure FeeCheck where
  inputs : List (String × Nat)
  fee : Rat
  committed : Bool
  deriving DecidableEq, Repr

structure SendEnv where
  list_unspent : Option (List Unspent)
  estimate_fee : List (String × Nat) → Rat → Option Rat
  commit_tx : List (String × Nat) → Rat → Option String

/-- The per-item input selection of the batching loops: append the
unspent output to the batch when it is spendable (`safe && spendable`
for the base coin type, `safe` alone otherwise) and accumulate its
amount. -/
def push_spendable (in_type : String) (item : Unspent)
    (inputs : List (String × Nat)) (output_amt : Rat) :
    (List (String × Nat)) × Rat :=
  let spendable : Bool :=
    if in_type = "ghost" then item.safe && item.spendable else item.safe
  if spendable then
    (inputs ++ [(item.txid, item.vout)], output_amt + item.amount)
  else (inputs, output_amt)

/-- The shared batching loop: push each spendable unspent output onto
`inputs`; at every multiple of 100 accumulated inputs and at the last
unspent item, dry-run the transaction to estimate the fee; commit the
batch when the fee reaches `max_fee` or the items are exhausted, and
then start a fresh batch. -/
def send_loop (env : SendEnv) (in_type : String) (max_fee : Rat) :
    List Unspent → List (String × Nat) → Rat → List String →
    List FeeCheck → Option (List String × List FeeCheck)
  | [], _, _, txids, log => some (txids, log)
  | item :: rest, inputs, output_amt, txids, log =>
    let p := push_spendable in_type item inputs output_amt
    let is_last : Bool := rest.isEmpty
    if p.1.isEmpty then
      send_loop env in_type max_fee rest p.1 p.2 txids log
    else if p.1.length % 100 = 0 || is_last then do
      let precise_amount := precise p.2
      let fee ← env.estimate_fee p.1 precise_amount
      if max_fee ≤ fee || is_last then do
        let txid ← env.commit_tx p.1 precise_amount
        send_loop env in_type max_fee rest [] 0 (txids ++ [txid])
          (log ++ [⟨p.1, fee, true⟩])
      else
        send_loop env in_type max_fee rest p.1 p.2 txids
          (log ++ [⟨p.1, fee, false⟩])
    else
      send_loop env in_type max_fee rest p.1 p.2 txids log

/-- `send_ghost(addr, in_type, out_type)`: list unspent outputs and run
the batching loop with the 0.25 GHOST fee ceiling. -/
def send_ghost (env : SendEnv) (in_type : String) :
    Option (List String × List FeeCheck) := do
  let unspent ← env.list_unspent
  send_loop env in_type (convert_from_sat MAX_TX_FEES) unspent [] 0 [] []

/-- `zap_ghost(spend_addr, in_type)`: build the cold-staking script
(`none` models a failed `build_script` call), then run the same
batching loop. -/
def zap_ghost (env : SendEnv) (build_script : Option String)
    (in_type : String) : Option (List String × List FeeCheck) := do
  let _cs_script ← build_script
  let unspent ← env.list_unspent
  send_loop env in_type (convert_from_sat MAX_TX_FEES) unspent [] 0 [] []

/-! ## Task scheduler (src/lib/src/task_runner.rs) -/

def runner_tasks : List String :=
  ["daemon_update", "self_update", "process_rewards"]

/-- One iteration of the scheduler's 10-second polling loop (task_runner.rs
lines 73-117): it only reads the task table, skips tasks whose
`task_running` flag is set, and spawns those whose `next_run` has been
reached.  Returns the (unchanged) task table and the names spawned. -/
def runner_tick (tasks : List (String × Task)) (current_time : Int) :
    (List (String × Task)) × List String :=
  (tasks,
   runner_tasks.filter (fun name =>
     match sget tasks name with
     | none => false
     | some td => !td.task_running && decide (td.next_run ≤ current_time)))

/-- `toggle_running` (task_runner.rs lines 177-181). -/
def toggle_running (tasks : List (String × Task)) (name : String)
    (td : Task) : (List (String × Task)) × Task :=
  let td := { td with task_running := !td.task_running }
  (sset tasks name td, td)

/-- `schedule_next` (task_runner.rs lines 168-175): called by a spawned
job after its action completes; sets `next_run` to the completion time
plus `run_interval`, persists, then toggles `task_running` back off. -/
def schedule_next (tasks : List (String × Task)) (name : String)
    (td : Task) (completion_time : Int) : (List (String × Task)) × Task :=
  let next_time : Int := td.run_interval + completion_time
  let td := { td with next_run := next_time }
  let tasks := sset tasks name td
  toggle_running tasks name td

/-- A spawned job callback (`daemon_update_callback` /
`self_update_callback` / `process_rewards_callback`): read the task
record, toggle `task_running` on, run the delegated action (an RPC call
that does not touch the task table), and on completion run
`schedule_next`.  `none` models the `unwrap` panic when the task record
is missing. -/
def run_callback (tasks : List (String × Task)) (name : String)
    (completion_time : Int) : Option (List (String × Task)) := do
  let td ← sget tasks name
  let (tasks, td) := toggle_running tasks name td
  pure (schedule_next tasks name td completion_time).1

/-! # Claims -/

/-! ## C9: the stake-reward subtraction -/

/-- C9: in `get_block_reward` the stake reward is the unguarded u64
subtraction `vout_total - in_amount - agvr_reward`: whenever the sum of
counted output values is at least the resolved input total plus the
secondary reward, the computation is total and returns exactly that
difference; when the precondition fails the subtraction underflows and
the operation is undefined (no guard exists in the code). -/
theorem C9_stake_reward_subtraction (env : Env) (txid : String)
    (height : Nat) (tx : TxInfo) (in_amount : Nat) (stake_kernel : String)
    (is_agvr : Bool) (agvr_reward : Nat)
    (h1 : env.get_transaction txid = some tx)
    (h2 : scan_vins env tx.decoded.vout tx.decoded.vin 0 "" =
      some (in_amount, stake_kernel))
    (h3 : compute_is_agvr tx.decoded.vout height = some is_agvr)
    (h4 : compute_agvr_reward tx.decoded.vout stake_kernel is_agvr =
      some agvr_reward) :
    (in_amount + agvr_reward ≤ (vout_total_cold tx.decoded.vout).1 →
      get_block_reward env txid height = some
        { total_reward := agvr_reward +
            ((vout_total_cold tx.decoded.vout).1 - in_amount - agvr_reward),
          stake_reward :=
            (vout_total_cold tx.decoded.vout).1 - in_amount - agvr_reward,
          agvr_reward := agvr_reward, stake_kernel := stake_kernel,
          is_coldstake := (vout_total_cold tx.decoded.vout).2 }) ∧
    (¬ in_amount + agvr_reward ≤ (vout_total_cold tx.decoded.vout).1 →
      get_block_reward env txid height = none) := by
  constructor
  · intro hpre
    have hsub1 : in_amount ≤ (vout_total_cold tx.decoded.vout).1 := by
      omega
    have hsub2 :
        agvr_reward ≤ (vout_total_cold tx.decoded.vout).1 - in_amount := by
      omega
    simp [get_block_reward, h1, h2, h3, h4, checked_sub, hsub1, hsub2]
  · intro hpre
    rcases Nat.lt_or_ge (vout_total_cold tx.decoded.vout).1 in_amount
      with hlt | hge
    · have hno : ¬ in_amount ≤ (vout_total_cold tx.decoded.vout).1 := by
        omega
      simp [get_block_reward, h1, h2, h3, h4, checked_sub, hno]
    · have h5 :
          ¬ agvr_reward ≤ (vout_total_cold tx.decoded.vout).1 - in_amount :=
        by omega
      simp [get_block_reward, h1, h2, h3, h4, checked_sub, hge, h5]

/-- C9 witness: a stake transaction with no inputs, one plain counted
output of 5 satoshi, below the AGVR activation height. -/
def C9tx : TxInfo :=
  { txid := "stx9", blocktime := 1000, blockheight := 100,
    blockhash := "bh", confirmations := some 5, details := [⟨"stake"⟩],
    decoded :=
      { vin := [],
        vout := [{ valueSat := 5, vtype := none,
                   scriptPubKey := some { addresses := some ["A"],
                                          stakeaddresses := false },
                   gvr_fund_cfwd := false }] } }

def C9env : Env :=
  { get_transaction := fun t => if t = "stx9" then some C9tx else none,
    getblock_height := fun _ => none, is_syncing := some false,
    now := 0 }

theorem C9_witness :
    get_block_reward C9env "stx9" 100 = some
      { total_reward := 0 + ((vout_total_cold C9tx.decoded.vout).1 - 0 - 0),
        stake_reward := (vout_total_cold C9tx.decoded.vout).1 - 0 - 0,
        agvr_reward := 0, stake_kernel := "",
        is_coldstake := (vout_total_cold C9tx.decoded.vout).2 } :=
  (C9_stake_reward_subtraction C9env "stx9" 100 C9tx 0 "" false 0
    (by decide) (by decide) (by decide) (by decide)).1 (by decide)

/-! ## C2: which output carries the secondary (AGVR) reward -/

/-- C2 (amended): for an AGVR-eligible stake transaction the secondary
reward equals the value of output index 1 when output 1's address
EQUALS the stake kernel address, and the value of output index 2 when
output 1's address DIFFERS from the stake kernel address. -/
theorem C2_agvr_output_selection (env : Env) (txid : String)
    (height : Nat) (tx : TxInfo) (in_amount : Nat) (stake_kernel : String)
    (v1 v2 : Vout) (br : BlockReward)
    (h1 : env.get_transaction txid = some tx)
    (h2 : scan_vins env tx.decoded.vout tx.decoded.vin 0 "" =
      some (in_amount, stake_kernel))
    (h3 : compute_is_agvr tx.decoded.vout height = some true)
    (hv1 : tx.decoded.vout.get? 1 = some v1)
    (hv2 : tx.decoded.vout.get? 2 = some v2)
    (h5 : get_block_reward env txid height = some br) :
    br.agvr_reward =
      if get_addr_from_vout v1 = stake_kernel then v1.valueSat
      else v2.valueSat := by
  rw [List.get?_eq_getElem?] at hv1 hv2
  have hag : compute_agvr_reward tx.decoded.vout stake_kernel true =
      some (if get_addr_from_vout v1 = stake_kernel then v1.valueSat
        else v2.valueSat) := by
    by_cases hk : get_addr_from_vout v1 = stake_kernel
    · simp [compute_agvr_reward, hv1, hk]
    · simp [compute_agvr_reward, hv1, hk, hv2]
  simp only [get_block_reward, h1, h2, h3, hag, Option.bind_eq_bind,
    Option.some_bind] at h5
  rcases hd : checked_sub (vout_total_cold tx.decoded.vout).1 in_amount
    with _ | d
  · rw [hd] at h5; simp at h5
  · rw [hd] at h5
    simp only [Option.some_bind] at h5
    rcases hs : checked_sub d
        (if get_addr_from_vout v1 = stake_kernel then v1.valueSat
         else v2.valueSat) with _ | sr
    · rw [hs] at h5; simp at h5
    · rw [hs] at h5
      simp only [Option.some_bind, pure, Option.some.injEq] at h5
      rw [← h5]

/-- Output 1 of the C2 example: pays the stake kernel address `K`,
value 5. -/
def C2v1 : Vout :=
  { valueSat := 5, vtype := none,
    scriptPubKey := some { addresses := some ["K"],
                           stakeaddresses := false },
    gvr_fund_cfwd := false }

/-- Output 2 of the C2 example: pays a different address `B`, value 7. -/
def C2v2 : Vout :=
  { valueSat := 7, vtype := none,
    scriptPubKey := some { addresses := some ["B"],
                           stakeaddresses := false },
    gvr_fund_cfwd := false }

/-- The C2 example stake transaction: data marker output 0, then the
two candidate outputs; its single input spends output 0 of `prev2`. -/
def C2tx : TxInfo :=
  { txid := "stx2", blocktime := 2000, blockheight := 600000,
    blockhash := "bh2", confirmations := some 5, details := [⟨"stake"⟩],
    decoded :=
      { vin := [{ txid := "prev2", vout := 0 }],
        vout := [{ valueSat := 0, vtype := some "data",
                   scriptPubKey := none, gvr_fund_cfwd := false },
                 C2v1, C2v2] } }

/-- Previous transaction of the C2 example: output 0 pays 4 satoshi to
the kernel address `K`. -/
def C2prev : TxInfo :=
  { txid := "prev2", blocktime := 1000, blockheight := 599999,
    blockhash := "bh1", confirmations := some 10, details := [⟨"stake"⟩],
    decoded :=
      { vin := [],
        vout := [{ valueSat := 4, vtype := none,
                   scriptPubKey := some { addresses := some ["K"],
                                          stakeaddresses := false },
                   gvr_fund_cfwd := false }] } }

def C2env : Env :=
  { get_transaction := fun t =>
      if t = "stx2" then some C2tx
      else if t = "prev2" then some C2prev
      else none,
    getblock_height := fun _ => none, is_syncing := some false,
    now := 0 }

/-- The BlockReward `get_block_reward` computes for the C2 example:
the AGVR reward is taken from output index 1 (value 5) because output
1's address equals the stake kernel address. -/
def C2br : BlockReward :=
  { total_reward := 8, stake_reward := 3, agvr_reward := 5,
    stake_kernel := "K", is_coldstake := false }

/-- C2 counterexample: the claim says the secondary reward is the value
of output index 2 (= 7) when output 1's address equals the stake kernel
address; on this eligible stake transaction output 1's address equals
the kernel address `K` and the code returns output 1's value (= 5), not
output 2's. -/
theorem C2_counterexample :
    (get_block_reward C2env "stx2" AGVR_ACTIVATION_HEIGHT).map
        BlockReward.agvr_reward = some 5 ∧
    (get_block_reward C2env "stx2" AGVR_ACTIVATION_HEIGHT).map
        BlockReward.stake_kernel = some "K" ∧
    get_addr_from_vout C2v1 = "K" ∧
    C2tx.decoded.vout.get? 1 = some C2v1 ∧
    C2tx.decoded.vout.get? 2 = some C2v2 ∧
    C2v2.valueSat = 7 ∧ (5 : Nat) ≠ 7 := by
  refine ⟨?_, ?_, rfl, rfl, rfl, rfl, by decide⟩ <;> rfl

/-- C2 witness: the amended selection rule evaluated on the concrete
eligible stake transaction of the counterexample. -/
theorem C2_witness :
    C2br.agvr_reward =
      if get_addr_from_vout C2v1 = "K" then C2v1.valueSat
      else C2v2.valueSat :=
  C2_agvr_output_selection C2env "stx2" AGVR_ACTIVATION_HEIGHT C2tx 4 "K"
    C2v1 C2v2 C2br (by decide) (by decide) (by decide) (by decide)
    (by decide) (by decide)

/-! ## C8: scheduler mutual exclusion and next_run advancement -/

/-- C8: a scheduler tick never writes the task table (so it never
advances `next_run`), a tick at or past `next_run` does not spawn a task
whose `task_running` flag is set, and a spawned job advances `next_run`
to its completion time plus `run_interval` only when it completes (with
the running flag restored). -/
theorem C8_task_mutual_exclusion (tasks : List (String × Task))
    (name : String) (td : Task) (t : Int)
    (hget : sget tasks name = some td)
    (hrun : td.task_running = true)
    (hdue : td.next_run ≤ t) :
    (runner_tick tasks t).1 = tasks ∧
    name ∉ (runner_tick tasks t).2 ∧
    (∀ ct tasks2, run_callback tasks name ct = some tasks2 →
      sget tasks2 name = some { td with
        next_run := td.run_interval + ct,
        task_running := td.task_running }) := by
  refine ⟨rfl, ?_, ?_⟩
  · intro hmem
    simp only [runner_tick, List.mem_filter, hget, hrun] at hmem
    simp at hmem
  · intro ct tasks2 hcb
    simp only [run_callback, hget, toggle_running, schedule_next,
      Option.bind_some, Option.pure_def, Option.some.injEq,
      Option.bind_eq_bind, Option.some_bind, Bool.not_not] at hcb
    rw [← hcb, sget_sset_same]

/-- C8 witness: a concrete `process_rewards` task with the running flag
set and an overdue `next_run`. -/
def C8task : Task :=
  { id := 2, name := "process_rewards", run_interval := 900,
    next_run := 50, min_payout := some 10000000, task_running := true }

theorem C8_witness :
    (runner_tick [("process_rewards", C8task)] 100).1 =
      [("process_rewards", C8task)] ∧
    "process_rewards" ∉ (runner_tick [("process_rewards", C8task)] 100).2 ∧
    (∀ ct tasks2,
      run_callback [("process_rewards", C8task)] "process_rewards" ct =
        some tasks2 →
      sget tasks2 "process_rewards" = some { C8task with
        next_run := C8task.run_interval + ct,
        task_running := C8task.task_running }) :=
  C8_task_mutual_exclusion [("process_rewards", C8task)]
    "process_rewards" C8task 100 (by decide) (by decide) (by decide)

/-! ## C3 and C4: the new_block transition -/

/-- Inversion of a non-noop `new_block` run: the resulting in-memory
state carries the delivered hash, and the durable-write trace starts
with the checkpoint write, followed by the reconciliation effects (none
when the daemon was not ready). -/
theorem new_block_inv (env : Env) (tg : Bool) (st : ServerState)
    (db : GVDB) (nb : String) (st' : ServerState) (db' : GVDB)
    (tr : List Effect) (hne : nb ≠ st.best_block_hash)
    (h : new_block env tg st db nb = some (st', db', tr)) :
    ∃ bh rest, env.getblock_height nb = some bh ∧
      st'.best_block_hash = nb ∧
      tr = Effect.set_daemon_status
        { height := bh % 2 ^ 32, block_hash := nb } :: rest ∧
      (daemon_ready st = false → rest = []) := by
  rw [new_block, if_neg hne] at h
  cases hgb : env.getblock_height nb with
  | none => rw [hgb] at h; simp at h
  | some bh =>
    rw [hgb] at h
    cases hsy : env.is_syncing with
    | none => rw [hsy] at h; simp at h
    | some sy =>
      rw [hsy] at h
      simp only [Option.bind_eq_bind, Option.some_bind, Option.map_some,
        Option.map_some', Option.pure_def, GVDB.set_daemon_status] at h
      refine ⟨bh, ?_⟩
      cases hr : daemon_ready st with
      | false =>
        rw [hr] at h
        simp only [Bool.false_eq_true, if_false, Option.some_bind,
          Option.some.injEq, Prod.mk.injEq] at h
        exact ⟨[], rfl, by rw [← h.1], by rw [← h.2.2], fun _ => rfl⟩
      | true =>
        rw [hr] at h
        simp only [if_true] at h
        rcases Option.bind_eq_some.mp h with ⟨pz, hz, h⟩
        rcases Option.bind_eq_some.mp h with ⟨pr, hrw, h⟩
        simp only [Option.some.injEq, Prod.mk.injEq] at h
        refine ⟨pz.2 ++ pr.2, rfl, by rw [← h.1], by rw [← h.2.2], ?_⟩
        intro hf
        exact absurd hf (by simp)

/-- C4: `new_block` is idempotent against duplicate notifications: after
any completed delivery of a hash, delivering the same hash again is a
no-op — no checkpoint write, no reconciliation pass, and no change to
the state or the store. -/
theorem C4_new_block_idempotent (env : Env) (tg : Bool)
    (st : ServerState) (db : GVDB) (nb : String) (st' : ServerState)
    (db' : GVDB) (tr : List Effect)
    (h : new_block env tg st db nb = some (st', db', tr)) :
    new_block env tg st' db' nb = some (st', db', []) := by
  by_cases he : nb = st.best_block_hash
  · rw [new_block, if_pos he] at h
    obtain ⟨rfl, rfl, rfl⟩ :
        st = st' ∧ db = db' ∧ ([] : List Effect) = tr := by
      have h2 := Option.some.inj h
      exact ⟨congrArg (·.1) h2, congrArg (·.2.1) h2,
        congrArg (·.2.2) h2⟩
    rw [new_block, if_pos he]
  · obtain ⟨bh, rest, _, hh, _, _⟩ :=
      new_block_inv env tg st db nb st' db' tr he h
    rw [new_block, if_pos hh.symm]

/-- C3 (amended): in every non-noop `new_block` execution the
`DaemonStatusDB` checkpoint is persisted FIRST — before, not after, the
reward/zap record updates of the reconciliation passes — and the
reconciliation passes run only when the daemon is ready. -/
theorem C3_checkpoint_written_first (env : Env) (tg : Bool)
    (st : ServerState) (db : GVDB) (nb : String) (st' : ServerState)
    (db' : GVDB) (tr : List Effect) (hne : nb ≠ st.best_block_hash)
    (h : new_block env tg st db nb = some (st', db', tr)) :
    ∃ bh rest, env.getblock_height nb = some bh ∧
      tr = Effect.set_daemon_status
        { height := bh % 2 ^ 32, block_hash := nb } :: rest ∧
      (daemon_ready st = false → rest = []) := by
  obtain ⟨bh, rest, h1, _, h3, h4⟩ :=
    new_block_inv env tg st db nb st' db' tr hne h
  exact ⟨bh, rest, h1, h3, h4⟩

/-- The C3/C4 concrete scenario: a ready daemon at best block `h1` with
one reward record (timestamp 777) whose pending stake status re-fetch
fails, receiving block `h2` at height 5. -/
def C3st : ServerState :=
  { online := true, synced := true, good_chain := true,
    available := true, best_block := 1, best_block_hash := "h1",
    cycle := 0 }

def C3rec : RewardsDB :=
  { height := 10, timestamp := 777, block_hash := "bh777", txid := "t1",
    reward := 5, agvr_reward := 0, all_time_reward := 5,
    all_time_agvr_reward := 0, address := "A", is_coldstake := false }

def C3stake : NewStakeStatusDB :=
  { txid := "t1", confirmations := 2, timestamp := 777,
    tg_msg_id := none }

def C3db : GVDB :=
  { rewards_ts_index := [(777, C3rec)],
    new_stake_status := [("t1", C3stake)], zap_status_db := [],
    tg_bot_queue := [], daemon_status_db := none }

def C3env : Env :=
  { get_transaction := fun _ => none,
    getblock_height := fun h => if h = "h2" then some 5 else none,
    is_syncing := some false, now := 424242 }

def C3stAfter : ServerState :=
  { online := true, synced := true, good_chain := true,
    available := true, best_block := 5, best_block_hash := "h2",
    cycle := 1 }

def C3dbAfter : GVDB :=
  { rewards_ts_index := [], new_stake_status := [], zap_status_db := [],
    tg_bot_queue := [],
    daemon_status_db := some { height := 5, block_hash := "h2" } }

def C3trace : List Effect :=
  [Effect.set_daemon_status { height := 5, block_hash := "h2" },
   Effect.remove_new_stake_status "t1",
   Effect.remove_reward (toBeBytes 777)]

/-- C3 counterexample: on this execution of `new_block` the checkpoint
write is the FIRST durable write and a reward-record removal follows it,
so the claim that the checkpoint is persisted only after all derived
reward/zap record updates is false. -/
theorem C3_counterexample :
    new_block C3env true C3st C3db "h2" =
      some (C3stAfter, C3dbAfter, C3trace) ∧
    C3trace.head? = some (Effect.set_daemon_status
      { height := 5, block_hash := "h2" }) ∧
    Effect.remove_reward (toBeBytes 777) ∈ C3trace.tail :=
  ⟨by decide, by decide, by decide⟩

/-- C3 witness: the amended ordering statement evaluated on the concrete
scenario. -/
theorem C3_witness :
    ∃ bh rest, C3env.getblock_height "h2" = some bh ∧
      C3trace = Effect.set_daemon_status
        { height := bh % 2 ^ 32, block_hash := "h2" } :: rest ∧
      (daemon_ready C3st = false → rest = []) :=
  C3_checkpoint_written_first C3env true C3st C3db "h2" C3stAfter
    C3dbAfter C3trace (by decide) (by decide)

/-- C4 witness: redelivering `h2` right after the completed first
delivery is a no-op. -/
theorem C4_witness :
    new_block C3env true C3stAfter C3dbAfter "h2" =
      some (C3stAfter, C3dbAfter, []) :=
  C4_new_block_idempotent C3env true C3st C3db "h2" C3stAfter C3dbAfter
    C3trace (by decide)

/-! ## C1 and C10: the reward ledger under ingestion -/

/-- The stake reward `process_stake_transaction` reads for `tx` (0 when
the computation is undefined; every theorem using it works under a
successful `get_block_reward`). -/
def reward_of (env : Env) (tx : TxInfo) : Nat :=
  ((get_block_reward env tx.txid (tx.blockheight % 2 ^ 32)).map
    BlockReward.stake_reward).getD 0

def agvr_of (env : Env) (tx : TxInfo) : Nat :=
  ((get_block_reward env tx.txid (tx.blockheight % 2 ^ 32)).map
    BlockReward.agvr_reward).getD 0

def addr_of (env : Env) (tx : TxInfo) : String :=
  ((get_block_reward env tx.txid (tx.blockheight % 2 ^ 32)).map
    BlockReward.stake_kernel).getD ""

def cold_of (env : Env) (tx : TxInfo) : Bool :=
  ((get_block_reward env tx.txid (tx.blockheight % 2 ^ 32)).map
    BlockReward.is_coldstake).getD false

/-- Cumulative totals of the ledger entry with the greatest key (0 when
the ledger is empty), as `process_stake_transaction` reads them. -/
def last_all_time_reward (db : GVDB) : Nat :=
  match rlast db.rewards_ts_index with
  | some p => p.2.all_time_reward
  | none => 0

def last_all_time_agvr_reward (db : GVDB) : Nat :=
  match rlast db.rewards_ts_index with
  | some p => p.2.all_time_agvr_reward
  | none => 0

/-- The `RewardsDB` record `process_stake_transaction` builds for `tx`
on a ledger whose last cumulative totals are `base_r`/`base_a`. -/
def expected_rec (env : Env) (tx : TxInfo) (base_r base_a : Nat) :
    RewardsDB :=
  { height := tx.blockheight % 2 ^ 32, timestamp := tx.blocktime,
    block_hash := tx.blockhash, txid := tx.txid,
    reward := reward_of env tx, agvr_reward := agvr_of env tx,
    all_time_reward := base_r + reward_of env tx,
    all_time_agvr_reward := base_a + agvr_of env tx,
    address := addr_of env tx, is_coldstake := cold_of env tx }

def empty_db : GVDB :=
  { rewards_ts_index := [], new_stake_status := [], zap_status_db := [],
    tg_bot_queue := [], daemon_status_db := none }

/-- Ingest a sequence of stake transactions, as the wallet-transaction
event path does one at a time. -/
def ingest_stakes (env : Env) (txs : List TxInfo) (db : GVDB) :
    Option GVDB :=
  txs.foldlM (fun db tx =>
    (process_stake_transaction env tx db).map (fun r => r.1)) db

/-- Inversion of a successful `process_stake_transaction`: the ledger is
the old ledger with the new record inserted under the block time, and
the new record carries the previous last cumulative totals plus its own
amounts. -/
theorem process_stake_inv (env : Env) (tx : TxInfo) (db db' : GVDB)
    (rec : RewardsDB) (effs : List Effect)
    (h : process_stake_transaction env tx db = some (db', rec, effs)) :
    db'.rewards_ts_index = rset db.rewards_ts_index tx.blocktime rec ∧
    rec = expected_rec env tx (last_all_time_reward db)
      (last_all_time_agvr_reward db) ∧
    Effect.set_reward (toBeBytes tx.blocktime) rec ∈ effs := by
  cases hbr : get_block_reward env tx.txid (tx.blockheight % 2 ^ 32) with
  | none =>
    rw [process_stake_transaction, hbr] at h
    simp at h
  | some br =>
    rw [process_stake_transaction, hbr] at h
    simp only [Option.bind_eq_bind, Option.some_bind] at h
    have hrw : reward_of env tx = br.stake_reward := by
      unfold reward_of; rw [hbr]; rfl
    have haw : agvr_of env tx = br.agvr_reward := by
      unfold agvr_of; rw [hbr]; rfl
    have hadw : addr_of env tx = br.stake_kernel := by
      unfold addr_of; rw [hbr]; rfl
    have hcw : cold_of env tx = br.is_coldstake := by
      unfold cold_of; rw [hbr]; rfl
    cases hc : tx.confirmations with
    | none =>
      rw [hc] at h
      simp only [Option.some_bind] at h
      cases hl : rlast db.rewards_ts_index with
      | none =>
        rw [hl] at h
        simp only [GVDB.set_new_stake_status, GVDB.set_reward,
          Nat.zero_le, if_true, Option.pure_def, Option.some.injEq,
          Prod.mk.injEq] at h
        refine ⟨?_, ?_, ?_⟩
        · rw [← h.1, ← h.2.1]
        · rw [← h.2.1]
          simp [expected_rec, last_all_time_reward,
            last_all_time_agvr_reward, hl, hrw, haw, hadw, hcw]
        · rw [← h.2.2, ← h.2.1]
          simp
      | some p =>
        rw [hl] at h
        simp only [GVDB.set_new_stake_status, GVDB.set_reward,
          Nat.zero_le, if_true, Option.pure_def, Option.some.injEq,
          Prod.mk.injEq] at h
        refine ⟨?_, ?_, ?_⟩
        · rw [← h.1, ← h.2.1]
        · rw [← h.2.1]
          simp [expected_rec, last_all_time_reward,
            last_all_time_agvr_reward, hl, hrw, haw, hadw, hcw]
        · rw [← h.2.2, ← h.2.1]
          simp
    | some c =>
      rw [hc] at h
      simp only [Option.some_bind] at h
      by_cases hneg : c < 0
      · rw [if_pos hneg] at h
        simp at h
      · rw [if_neg hneg] at h
        cases hl : rlast db.rewards_ts_index with
        | none =>
          rw [hl] at h
          by_cases h100 : c.toNat ≤ 100
          · rw [if_pos h100] at h
            simp only [GVDB.set_new_stake_status, GVDB.set_reward,
              Option.pure_def, Option.some.injEq, Prod.mk.injEq] at h
            refine ⟨?_, ?_, ?_⟩
            · rw [← h.1, ← h.2.1]
            · rw [← h.2.1]
              simp [expected_rec, last_all_time_reward,
                last_all_time_agvr_reward, hl, hrw, haw, hadw, hcw]
            · rw [← h.2.2, ← h.2.1]
              simp
          · rw [if_neg h100] at h
            simp only [GVDB.set_new_stake_status, GVDB.set_reward,
              Option.pure_def, Option.some.injEq, Prod.mk.injEq] at h
            refine ⟨?_, ?_, ?_⟩
            · rw [← h.1, ← h.2.1]
            · rw [← h.2.1]
              simp [expected_rec, last_all_time_reward,
                last_all_time_agvr_reward, hl, hrw, haw, hadw, hcw]
            · rw [← h.2.2, ← h.2.1]
              simp
        | some p =>
          rw [hl] at h
          by_cases h100 : c.toNat ≤ 100
          · rw [if_pos h100] at h
            simp only [GVDB.set_new_stake_status, GVDB.set_reward,
              Option.pure_def, Option.some.injEq, Prod.mk.injEq] at h
            refine ⟨?_, ?_, ?_⟩
            · rw [← h.1, ← h.2.1]
            · rw [← h.2.1]
              simp [expected_rec, last_all_time_reward,
                last_all_time_agvr_reward, hl, hrw, haw, hadw, hcw]
            · rw [← h.2.2, ← h.2.1]
              simp
          · rw [if_neg h100] at h
            simp only [GVDB.set_new_stake_status, GVDB.set_reward,
              Option.pure_def, Option.some.injEq, Prod.mk.injEq] at h
            refine ⟨?_, ?_, ?_⟩
            · rw [← h.1, ← h.2.1]
            · rw [← h.2.1]
              simp [expected_rec, last_all_time_reward,
                last_all_time_agvr_reward, hl, hrw, haw, hadw, hcw]
            · rw [← h.2.2, ← h.2.1]
              simp

/-- C10: the reward ledger holds at most one record per block timestamp:
records are keyed solely by the 8-byte big-endian block time (an
injective encoding), so ingesting a stake transaction whose block time
is already present replaces the stored record — same ledger size, new
record under the key, all other keys untouched, sortedness (hence key
uniqueness) preserved. -/
theorem C10_reward_keyed_by_timestamp (env : Env) (tx : TxInfo)
    (db db' : GVDB) (rec v0 : RewardsDB) (effs : List Effect)
    (hs : RSorted db.rewards_ts_index)
    (hprev : rget db.rewards_ts_index tx.blocktime = some v0)
    (h : process_stake_transaction env tx db = some (db', rec, effs)) :
    rget db'.rewards_ts_index tx.blocktime = some rec ∧
    db'.rewards_ts_index.length = db.rewards_ts_index.length ∧
    (∀ t, t ≠ tx.blocktime →
      rget db'.rewards_ts_index t = rget db.rewards_ts_index t) ∧
    RSorted db'.rewards_ts_index ∧
    Effect.set_reward (toBeBytes tx.blocktime) rec ∈ effs ∧
    (∀ t1 t2, t1 < 2 ^ 64 → t2 < 2 ^ 64 →
      (toBeBytes t1 = toBeBytes t2 ↔ t1 = t2)) := by
  obtain ⟨h1, _, h3⟩ := process_stake_inv env tx db db' rec effs h
  rw [h1]
  exact ⟨rget_rset_same _ _ _,
    rset_length_of_mem _ _ _ hs hprev,
    fun t ht => rget_rset_other _ _ _ _ (Ne.symm ht),
    rset_sorted _ _ _ hs, h3, toBeBytes_inj⟩

/-- C10 witness data: a ledger already holding a record at timestamp
1000, and a second stake transaction with the same block time. -/
def C10old : RewardsDB :=
  { height := 9, timestamp := 1000, block_hash := "old", txid := "told",
    reward := 3, agvr_reward := 0, all_time_reward := 3,
    all_time_agvr_reward := 0, address := "X", is_coldstake := false }

def C10db : GVDB :=
  { rewards_ts_index := [(1000, C10old)], new_stake_status := [],
    zap_status_db := [], tg_bot_queue := [], daemon_status_db := none }

def C10rec : RewardsDB :=
  { height := 100, timestamp := 1000, block_hash := "bh",
    txid := "stx9", reward := 5, agvr_reward := 0, all_time_reward := 8,
    all_time_agvr_reward := 0, address := "", is_coldstake := false }

def C10item : NewStakeStatusDB :=
  { txid := "stx9", confirmations := 5, timestamp := 1000,
    tg_msg_id := none }

def C10dbAfter : GVDB :=
  { rewards_ts_index := [(1000, C10rec)],
    new_stake_status := [("stx9", C10item)], zap_status_db := [],
    tg_bot_queue := [], daemon_status_db := none }

theorem C10_witness :
    rget C10dbAfter.rewards_ts_index 1000 = some C10rec ∧
    C10dbAfter.rewards_ts_index.length =
      C10db.rewards_ts_index.length ∧
    (∀ t, t ≠ 1000 →
      rget C10dbAfter.rewards_ts_index t =
        rget C10db.rewards_ts_index t) ∧
    RSorted C10dbAfter.rewards_ts_index ∧
    Effect.set_reward (toBeBytes 1000) C10rec ∈
      [Effect.set_new_stake_status "stx9" C10item,
       Effect.set_reward (toBeBytes 1000) C10rec] ∧
    (∀ t1 t2, t1 < 2 ^ 64 → t2 < 2 ^ 64 →
      (toBeBytes t1 = toBeBytes t2 ↔ t1 = t2)) :=
  C10_reward_keyed_by_timestamp C9env C9tx C10db C10dbAfter C10rec
    C10old
    [Effect.set_new_stake_status "stx9" C10item,
     Effect.set_reward (toBeBytes 1000) C10rec]
    (by simp [RSorted, C10db]) (by decide) (by decide)

/-- The ledger entries a run of ingestions appends, starting from last
cumulative totals `br`/`ba`. -/
def expected_entries (env : Env) : Nat → Nat → List TxInfo →
    List (Nat × RewardsDB)
  | _, _, [] => []
  | br, ba, tx :: rest =>
    (tx.blocktime, expected_rec env tx br ba) ::
      expected_entries env (br + reward_of env tx)
        (ba + agvr_of env tx) rest

/-- Ingesting stake transactions whose block times strictly exceed every
stored key, in strictly increasing order, appends exactly the expected
entries with running cumulative totals. -/
theorem ingest_rewards_shape (env : Env) :
    ∀ (txs : List TxInfo) (db db' : GVDB),
    List.Pairwise (fun a b => a.blocktime < b.blocktime) txs →
    (∀ e ∈ db.rewards_ts_index, ∀ tx ∈ txs, e.1 < tx.blocktime) →
    ingest_stakes env txs db = some db' →
    db'.rewards_ts_index = db.rewards_ts_index ++
      expected_entries env (last_all_time_reward db)
        (last_all_time_agvr_reward db) txs := by
  intro txs
  induction txs with
  | nil =>
    intro db db' _ _ h
    simp only [ingest_stakes, List.foldlM_nil, Option.pure_def,
      Option.some.injEq] at h
    rw [← h]
    simp [expected_entries]
  | cons tx rest ih =>
    intro db db' hsorted hgt h
    simp only [ingest_stakes, List.foldlM_cons,
      Option.bind_eq_bind] at h
    rcases Option.bind_eq_some.mp h with ⟨db1, hstep, hrest⟩
    rcases Option.map_eq_some'.mp hstep with ⟨trip, hproc, hdb1⟩
    have hproc2 : process_stake_transaction env tx db =
        some (trip.1, trip.2.1, trip.2.2) := by rw [hproc]
    obtain ⟨r1, r2, _⟩ :=
      process_stake_inv env tx db trip.1 trip.2.1 trip.2.2 hproc2
    have happ : trip.1.rewards_ts_index = db.rewards_ts_index ++
        [(tx.blocktime, trip.2.1)] := by
      rw [r1]
      exact rset_append _ _ _
        (fun e he => hgt e he tx (List.mem_cons_self tx rest))
    have hlast : rlast trip.1.rewards_ts_index =
        some (tx.blocktime, trip.2.1) := by
      rw [happ]
      exact List.getLast?_concat _
    have hrest2 : ingest_stakes env rest trip.1 = some db' := by
      rw [← hdb1] at hrest
      exact hrest
    simp only [List.pairwise_cons] at hsorted
    have hshape := ih trip.1 db' hsorted.2 ?hgt2 hrest2
    case hgt2 =>
      intro e he tx2 htx2
      rw [happ] at he
      rcases List.mem_append.mp he with he | he
      · exact hgt e he tx2 (List.mem_cons_of_mem tx htx2)
      · simp only [List.mem_singleton] at he
        rw [he]
        exact hsorted.1 tx2 htx2
    rw [hshape, happ]
    have hbase_r : last_all_time_reward trip.1 =
        last_all_time_reward db + reward_of env tx := by
      rw [last_all_time_reward, hlast, r2]
      rfl
    have hbase_a : last_all_time_agvr_reward trip.1 =
        last_all_time_agvr_reward db + agvr_of env tx := by
      rw [last_all_time_agvr_reward, hlast, r2]
      rfl
    rw [hbase_r, hbase_a, r2]
    simp [expected_entries]

/-- Index `n` of the expected entries: the record for the `n`-th
transaction, with cumulative totals `base + (sum of the first n
rewards)` plus its own reward. -/
theorem expected_entries_get (env : Env) :
    ∀ (txs : List TxInfo) (br ba n : Nat) (hn : n < txs.length),
    (expected_entries env br ba txs).get? n =
      some ((txs.get ⟨n, hn⟩).blocktime,
        expected_rec env (txs.get ⟨n, hn⟩)
          (br + ((txs.take n).map (reward_of env)).sum)
          (ba + ((txs.take n).map (agvr_of env)).sum)) := by
  intro txs
  induction txs with
  | nil => intro br ba n hn; simp at hn
  | cons tx rest ih =>
    intro br ba n hn
    cases n with
    | zero => simp [expected_entries]
    | succ m =>
      have hm : m < rest.length := by simpa using hn
      simp only [expected_entries, List.get?_cons_succ, List.get_cons_succ,
        List.take_succ_cons, List.map_cons, List.sum_cons]
      rw [ih (br + reward_of env tx) (ba + agvr_of env tx) m hm]
      simp [Nat.add_assoc]

theorem sum_map_take_succ (f : TxInfo → Nat) (txs : List TxInfo)
    (n : Nat) (hn : n < txs.length) :
    ((txs.take (n + 1)).map f).sum =
      ((txs.take n).map f).sum + f (txs.get ⟨n, hn⟩) := by
  rw [List.map_take, List.map_take,
    List.sum_take_succ (txs.map f) n (by simpa using hn)]
  simp

/-- C1: ingesting a strictly-increasing-block-time sequence of stake
transactions into an initially empty reward ledger yields, at every
index n, a record whose cumulative all-time totals equal the sum of the
reward (resp. secondary-reward) amounts of the first n+1 records — i.e.
the previous record's cumulative totals plus the record's own amounts. -/
theorem C1_cumulative_totals (env : Env) (txs : List TxInfo)
    (db' : GVDB)
    (hsorted : List.Pairwise (fun a b => a.blocktime < b.blocktime) txs)
    (h : ingest_stakes env txs empty_db = some db')
    (n : Nat) (hn : n < txs.length) :
    ∃ rec, db'.rewards_ts_index.get? n =
        some ((txs.get ⟨n, hn⟩).blocktime, rec) ∧
      rec.reward = reward_of env (txs.get ⟨n, hn⟩) ∧
      rec.agvr_reward = agvr_of env (txs.get ⟨n, hn⟩) ∧
      rec.all_time_reward =
        ((txs.take (n + 1)).map (reward_of env)).sum ∧
      rec.all_time_agvr_reward =
        ((txs.take (n + 1)).map (agvr_of env)).sum := by
  have hshape := ingest_rewards_shape env txs empty_db db' hsorted
    (by intro e he; simp [empty_db] at he) h
  have hget := expected_entries_get env txs 0 0 n hn
  refine ⟨expected_rec env (txs.get ⟨n, hn⟩)
      (((txs.take n).map (reward_of env)).sum)
      (((txs.take n).map (agvr_of env)).sum), ?_, rfl, rfl, ?_, ?_⟩
  · rw [hshape]
    show (expected_entries env (last_all_time_reward empty_db)
      (last_all_time_agvr_reward empty_db) txs).get? n = _
    have hr0 : last_all_time_reward empty_db = 0 := rfl
    have ha0 : last_all_time_agvr_reward empty_db = 0 := rfl
    rw [hr0, ha0, hget]
    simp
  · show ((txs.take n).map (reward_of env)).sum +
      reward_of env (txs.get ⟨n, hn⟩) = _
    rw [sum_map_take_succ (reward_of env) txs n hn]
  · show ((txs.take n).map (agvr_of env)).sum +
      agvr_of env (txs.get ⟨n, hn⟩) = _
    rw [sum_map_take_succ (agvr_of env) txs n hn]

/-- C1 witness data: two stake transactions at block times 1000 and
2000 with stake rewards 5 and 7. -/
def C1txA : TxInfo :=
  { txid := "sA", blocktime := 1000, blockheight := 100,
    blockhash := "ba", confirmations := some 5, details := [⟨"stake"⟩],
    decoded :=
      { vin := [],
        vout := [{ valueSat := 5, vtype := none,
                   scriptPubKey := some { addresses := some ["A"],
                                          stakeaddresses := false },
                   gvr_fund_cfwd := false }] } }

def C1txB : TxInfo :=
  { txid := "sB", blocktime := 2000, blockheight := 101,
    blockhash := "bb", confirmations := some 200,
    details := [⟨"stake"⟩],
    decoded :=
      { vin := [],
        vout := [{ valueSat := 7, vtype := none,
                   scriptPubKey := some { addresses := some ["B"],
                                          stakeaddresses := false },
                   gvr_fund_cfwd := false }] } }

def C1env : Env :=
  { get_transaction := fun t =>
      if t = "sA" then some C1txA
      else if t = "sB" then some C1txB
      else none,
    getblock_height := fun _ => none, is_syncing := some false,
    now := 0 }

def C1recA : RewardsDB :=
  { height := 100, timestamp := 1000, block_hash := "ba", txid := "sA",
    reward := 5, agvr_reward := 0, all_time_reward := 5,
    all_time_agvr_reward := 0, address := "", is_coldstake := false }

def C1recB : RewardsDB :=
  { height := 101, timestamp := 2000, block_hash := "bb", txid := "sB",
    reward := 7, agvr_reward := 0, all_time_reward := 12,
    all_time_agvr_reward := 0, address := "", is_coldstake := false }

def C1dbAfter : GVDB :=
  { rewards_ts_index := [(1000, C1recA), (2000, C1recB)],
    new_stake_status :=
      [("sA", { txid := "sA", confirmations := 5, timestamp := 1000,
                tg_msg_id := none })],
    zap_status_db := [], tg_bot_queue := [], daemon_status_db := none }

theorem C1_witness :
    ∃ rec, C1dbAfter.rewards_ts_index.get? 1 =
        some (([C1txA, C1txB].get ⟨1, by decide⟩).blocktime, rec) ∧
      rec.reward = reward_of C1env ([C1txA, C1txB].get ⟨1, by decide⟩) ∧
      rec.agvr_reward =
        agvr_of C1env ([C1txA, C1txB].get ⟨1, by decide⟩) ∧
      rec.all_time_reward =
        (([C1txA, C1txB].take 2).map (reward_of C1env)).sum ∧
      rec.all_time_agvr_reward =
        (([C1txA, C1txB].take 2).map (agvr_of C1env)).sum :=
  C1_cumulative_totals C1env [C1txA, C1txB] C1dbAfter
    (by simp [C1txA, C1txB]) (by decide) 1 (by decide)

/-! ## C5: stake reconciliation removes invalidated rewards and leaves
the rest of the ledger untouched -/

/-- The condition under which stake reconciliation treats a pending
stake as invalidated: the transaction re-fetch fails, or its first
detail entry is missing or not of category "stake". -/
def stake_fetch_invalid (env : Env) (st : NewStakeStatusDB) : Bool :=
  match env.get_transaction st.txid with
  | none => true
  | some tx =>
    match tx.details.head? with
    | none => true
    | some d0 => d0.category ≠ "stake"

theorem rget_rdel_none {α : Type} (s : List (Nat × α)) (k t : Nat)
    (h : rget s t = none) : rget (rdel s k) t = none := by
  by_cases ht : t = k
  · rw [ht, rget_rdel_same]
  · rw [rget_rdel_other s k t (fun hk => ht hk.symm), h]

/-- Everything the C5 argument needs about one iteration of the
`process_rewards_status` loop. -/
theorem rewards_entry_props (env : Env) (tg : Bool) (db : GVDB)
    (effs : List Effect) (k : String) (st : NewStakeStatusDB)
    (db2 : GVDB) (effs2 : List Effect)
    (h : process_rewards_entry env tg (db, effs) (k, st) =
      some (db2, effs2)) :
    (∀ t, (stake_fetch_invalid env st = true → t ≠ st.timestamp) →
      rget db2.rewards_ts_index t = rget db.rewards_ts_index t) ∧
    (∀ t, rget db.rewards_ts_index t = none →
      rget db2.rewards_ts_index t = none) ∧
    (∀ k2, k2 ≠ k →
      sget db2.new_stake_status k2 = sget db.new_stake_status k2) ∧
    (stake_fetch_invalid env st = true →
      sget db2.new_stake_status k = none ∧
      rget db2.rewards_ts_index st.timestamp = none) := by
  cases htx : env.get_transaction st.txid with
  | none =>
    have hinv : stake_fetch_invalid env st = true := by
      simp [stake_fetch_invalid, htx]
    simp only [process_rewards_entry, htx, GVDB.remove_new_stake_status,
      GVDB.remove_reward, Option.pure_def, Option.some.injEq,
      Prod.mk.injEq] at h
    refine ⟨?_, ?_, ?_, ?_⟩
    · intro t ht
      rw [← h.1]
      exact rget_rdel_other _ _ _ (fun he => (ht hinv) he.symm)
    · intro t ht
      rw [← h.1]
      exact rget_rdel_none _ _ _ ht
    · intro k2 hk2
      rw [← h.1]
      exact sget_sdel_other _ _ _ (fun he => hk2 he.symm)
    · intro _
      rw [← h.1]
      exact ⟨sget_sdel_same _ _, rget_rdel_same _ _⟩
  | some tx =>
    have hinv : stake_fetch_invalid env st =
        (match tx.details.head? with
         | none => true
         | some d0 => decide (d0.category ≠ "stake")) := by
      simp [stake_fetch_invalid, htx]
    cases hhd : tx.details.head? with
    | none =>
      rw [hhd] at hinv
      simp only [process_rewards_entry, htx, hhd,
        GVDB.remove_new_stake_status, GVDB.remove_reward,
        GVDB.set_tg_bot_queue, if_true, Option.pure_def,
        Option.some.injEq, Prod.mk.injEq] at h
      cases tg with
      | true =>
        simp only [if_true] at h
        refine ⟨?_, ?_, ?_, ?_⟩
        · intro t ht
          rw [← h.1]
          exact rget_rdel_other _ _ _ (fun he => (ht hinv) he.symm)
        · intro t ht
          rw [← h.1]
          exact rget_rdel_none _ _ _ ht
        · intro k2 hk2
          rw [← h.1]
          exact sget_sdel_other _ _ _ (fun he => hk2 he.symm)
        · intro _
          rw [← h.1]
          exact ⟨sget_sdel_same _ _, rget_rdel_same _ _⟩
      | false =>
        simp only [Bool.false_eq_true, if_false] at h
        refine ⟨?_, ?_, ?_, ?_⟩
        · intro t ht
          rw [← h.1]
          exact rget_rdel_other _ _ _ (fun he => (ht hinv) he.symm)
        · intro t ht
          rw [← h.1]
          exact rget_rdel_none _ _ _ ht
        · intro k2 hk2
          rw [← h.1]
          exact sget_sdel_other _ _ _ (fun he => hk2 he.symm)
        · intro _
          rw [← h.1]
          exact ⟨sget_sdel_same _ _, rget_rdel_same _ _⟩
    | some d0 =>
      rw [hhd] at hinv
      by_cases hcat : d0.category = "stake"
      · have hinv2 : stake_fetch_invalid env st = false := by
          rw [hinv]
          simp [hcat]
        have hdec : decide (d0.category ≠ "stake") = false := by
          simp [hcat]
        simp only [process_rewards_entry, htx, hhd, hdec,
          Bool.false_eq_true, if_false, GVDB.remove_new_stake_status,
          GVDB.set_new_stake_status, Option.bind_eq_bind,
          Option.pure_def] at h
        cases hcf : tx.confirmations with
        | none =>
          rw [hcf] at h
          simp only [Option.some_bind] at h
          rw [if_neg (by decide : ¬ (100 : Nat) < 0)] at h
          simp only [Option.some.injEq, Prod.mk.injEq] at h
          -- confirms = 0, so the ≤ 100 update branch runs
          refine ⟨?_, ?_, ?_, ?_⟩
          · intro t _
            rw [← h.1]
          · intro t ht
            rw [← h.1]
            exact ht
          · intro k2 hk2
            rw [← h.1]
            exact sget_sset_other _ _ _ _ (fun he => hk2 he.symm)
          · intro hfalse
            rw [hinv2] at hfalse
            exact absurd hfalse (by simp)
        | some c =>
          rw [hcf] at h
          simp only [Option.some_bind] at h
          by_cases hneg : c < 0
          · rw [if_pos hneg] at h
            simp at h
          · rw [if_neg hneg] at h
            by_cases h100 : 100 < c.toNat
            · rw [if_pos h100] at h
              simp only [Option.some.injEq, Prod.mk.injEq] at h
              refine ⟨?_, ?_, ?_, ?_⟩
              · intro t _
                rw [← h.1]
              · intro t ht
                rw [← h.1]
                exact ht
              · intro k2 hk2
                rw [← h.1]
                exact sget_sdel_other _ _ _ (fun he => hk2 he.symm)
              · intro hfalse
                rw [hinv2] at hfalse
                exact absurd hfalse (by simp)
            · rw [if_neg h100] at h
              simp only [Option.some.injEq, Prod.mk.injEq] at h
              refine ⟨?_, ?_, ?_, ?_⟩
              · intro t _
                rw [← h.1]
              · intro t ht
                rw [← h.1]
                exact ht
              · intro k2 hk2
                rw [← h.1]
                exact sget_sset_other _ _ _ _ (fun he => hk2 he.symm)
              · intro hfalse
                rw [hinv2] at hfalse
                exact absurd hfalse (by simp)
      · have hdec : decide (d0.category ≠ "stake") = true := by
          simp [hcat]
        have hinv3 : stake_fetch_invalid env st = true := by
          rw [hinv]
          simp [hcat]
        simp only [process_rewards_entry, htx, hhd, hdec, if_true,
          GVDB.remove_new_stake_status, GVDB.remove_reward,
          GVDB.set_tg_bot_queue, Option.pure_def, Option.some.injEq,
          Prod.mk.injEq] at h
        cases tg with
        | true =>
          simp only [if_true] at h
          refine ⟨?_, ?_, ?_, ?_⟩
          · intro t ht
            rw [← h.1]
            exact rget_rdel_other _ _ _ (fun he => (ht hinv3) he.symm)
          · intro t ht
            rw [← h.1]
            exact rget_rdel_none _ _ _ ht
          · intro k2 hk2
            rw [← h.1]
            exact sget_sdel_other _ _ _ (fun he => hk2 he.symm)
          · intro _
            rw [← h.1]
            exact ⟨sget_sdel_same _ _, rget_rdel_same _ _⟩
        | false =>
          simp only [Bool.false_eq_true, if_false] at h
          refine ⟨?_, ?_, ?_, ?_⟩
          · intro t ht
            rw [← h.1]
            exact rget_rdel_other _ _ _ (fun he => (ht hinv3) he.symm)
          · intro t ht
            rw [← h.1]
            exact rget_rdel_none _ _ _ ht
          · intro k2 hk2
            rw [← h.1]
            exact sget_sdel_other _ _ _ (fun he => hk2 he.symm)
          · intro _
            rw [← h.1]
            exact ⟨sget_sdel_same _ _, rget_rdel_same _ _⟩

/-- Frame of a full `process_rewards_status` pass: reward keys not
belonging to an invalidated pending stake are untouched, absent reward
keys stay absent, and a status key no entry carries is untouched. -/
theorem rewards_pass_frame (env : Env) (tg : Bool) :
    ∀ (l : List (String × NewStakeStatusDB)) (db : GVDB)
      (effs : List Effect) (res : GVDB × List Effect),
    l.foldlM (process_rewards_entry env tg) (db, effs) = some res →
    (∀ t, (∀ e ∈ l, stake_fetch_invalid env e.2 = true →
        t ≠ e.2.timestamp) →
      rget res.1.rewards_ts_index t = rget db.rewards_ts_index t) ∧
    (∀ t, rget db.rewards_ts_index t = none →
      rget res.1.rewards_ts_index t = none) ∧
    (∀ k, (∀ e ∈ l, e.1 ≠ k) →
      sget res.1.new_stake_status k = sget db.new_stake_status k) := by
  intro l
  induction l with
  | nil =>
    intro db effs res h
    simp only [List.foldlM_nil, Option.pure_def, Option.some.injEq] at h
    rw [← h]
    exact ⟨fun t _ => rfl, fun t ht => ht, fun k _ => rfl⟩
  | cons e rest ih =>
    intro db effs res h
    simp only [List.foldlM_cons, Option.bind_eq_bind] at h
    rcases Option.bind_eq_some.mp h with ⟨acc1, hstep, hrest⟩
    obtain ⟨db1, effs1⟩ := acc1
    obtain ⟨ke, se⟩ := e
    obtain ⟨p1, p2, p3, _⟩ :=
      rewards_entry_props env tg db effs ke se db1 effs1 hstep
    obtain ⟨q1, q2, q3⟩ := ih db1 effs1 res hrest
    refine ⟨?_, ?_, ?_⟩
    · intro t ht
      rw [q1 t (fun e2 he2 => ht e2 (List.mem_cons_of_mem _ he2)),
        p1 t (fun hi => ht (ke, se) (List.mem_cons_self _ _) hi)]
    · intro t ht
      exact q2 t (p2 t ht)
    · intro k hk
      rw [q3 k (fun e2 he2 => hk e2 (List.mem_cons_of_mem _ he2)),
        p3 k (Ne.symm (hk (ke, se) (List.mem_cons_self _ _)))]

/-- A pending stake whose transaction is invalidated is removed by the
pass, together with the reward record under its timestamp key. -/
theorem rewards_pass_removes (env : Env) (tg : Bool) :
    ∀ (l : List (String × NewStakeStatusDB)) (db : GVDB)
      (effs : List Effect) (res : GVDB × List Effect)
      (k : String) (st : NewStakeStatusDB),
    (k, st) ∈ l →
    (l.map Prod.fst).Nodup →
    stake_fetch_invalid env st = true →
    l.foldlM (process_rewards_entry env tg) (db, effs) = some res →
    sget res.1.new_stake_status k = none ∧
    rget res.1.rewards_ts_index st.timestamp = none := by
  intro l
  induction l with
  | nil =>
    intro db effs res k st hmem
    simp at hmem
  | cons e rest ih =>
    intro db effs res k st hmem hnd hinv h
    simp only [List.foldlM_cons, Option.bind_eq_bind] at h
    rcases Option.bind_eq_some.mp h with ⟨acc1, hstep, hrest⟩
    obtain ⟨db1, effs1⟩ := acc1
    simp only [List.map_cons, List.nodup_cons] at hnd
    rcases List.mem_cons.mp hmem with he | he
    · have hstep2 : process_rewards_entry env tg (db, effs) (k, st) =
          some (db1, effs1) := by rw [he]; exact hstep
      obtain ⟨_, _, _, p4⟩ :=
        rewards_entry_props env tg db effs k st db1 effs1 hstep2
      obtain ⟨r4a, r4b⟩ := p4 hinv
      obtain ⟨_, q2, q3⟩ := rewards_pass_frame env tg rest db1 effs1
        res hrest
      constructor
      · rw [q3 k ?keys]
        · exact r4a
        case keys =>
          intro e2 he2 hk
          apply hnd.1
          have : e.1 = k := by rw [← he]
          rw [this]
          rw [← hk]
          exact List.mem_map_of_mem Prod.fst he2
      · exact q2 st.timestamp r4b
    · exact ih db1 effs1 res k st he hnd.2 hinv hrest

/-- C5: for every pending stake whose transaction re-fetch fails or
whose first detail entry is missing or not of category "stake", stake
reconciliation removes both the PendingStakeStatus and the paired
RewardRecord stored under the stake's original timestamp key, and
leaves every other reward record — cumulative totals included —
unchanged (no retroactive repair). -/
theorem C5_stake_reorg_cleanup (env : Env) (tg : Bool) (db db' : GVDB)
    (effs : List Effect) (k : String) (st : NewStakeStatusDB)
    (hmem : (k, st) ∈ db.new_stake_status)
    (hnd : (db.new_stake_status.map Prod.fst).Nodup)
    (hinv : stake_fetch_invalid env st = true)
    (h : process_rewards_status env tg db = some (db', effs)) :
    sget db'.new_stake_status k = none ∧
    rget db'.rewards_ts_index st.timestamp = none ∧
    (∀ t, (∀ e ∈ db.new_stake_status,
        stake_fetch_invalid env e.2 = true → t ≠ e.2.timestamp) →
      rget db'.rewards_ts_index t = rget db.rewards_ts_index t) := by
  have h2 : db.new_stake_status.foldlM (process_rewards_entry env tg)
      (db, ([] : List Effect)) = some (db', effs) := h
  obtain ⟨a, b⟩ := rewards_pass_removes env tg db.new_stake_status db
    [] (db', effs) k st hmem hnd hinv h2
  obtain ⟨f1, _, _⟩ := rewards_pass_frame env tg db.new_stake_status db
    [] (db', effs) h2
  exact ⟨a, b, f1⟩

/-- C5 witness data: one invalidated pending stake (timestamp 777) and
a later reward record (timestamp 888, cumulative 9) that must survive
untouched. -/
def C5recX : RewardsDB :=
  { height := 10, timestamp := 777, block_hash := "bx", txid := "t1",
    reward := 4, agvr_reward := 0, all_time_reward := 4,
    all_time_agvr_reward := 0, address := "A", is_coldstake := false }

def C5recY : RewardsDB :=
  { height := 11, timestamp := 888, block_hash := "by", txid := "t2",
    reward := 5, agvr_reward := 0, all_time_reward := 9,
    all_time_agvr_reward := 0, address := "A", is_coldstake := false }

def C5st1 : NewStakeStatusDB :=
  { txid := "t1", confirmations := 3, timestamp := 777,
    tg_msg_id := none }

def C5db : GVDB :=
  { rewards_ts_index := [(777, C5recX), (888, C5recY)],
    new_stake_status := [("t1", C5st1)], zap_status_db := [],
    tg_bot_queue := [], daemon_status_db := none }

def C5env : Env :=
  { get_transaction := fun _ => none,
    getblock_height := fun _ => none, is_syncing := some false,
    now := 5555 }

def C5dbAfter : GVDB :=
  { rewards_ts_index := [(888, C5recY)], new_stake_status := [],
    zap_status_db := [], tg_bot_queue := [], daemon_status_db := none }

theorem C5_witness :
    sget C5dbAfter.new_stake_status "t1" = none ∧
    rget C5dbAfter.rewards_ts_index 777 = none ∧
    (∀ t, (∀ e ∈ C5db.new_stake_status,
        stake_fetch_invalid C5env e.2 = true → t ≠ e.2.timestamp) →
      rget C5dbAfter.rewards_ts_index t =
        rget C5db.rewards_ts_index t) :=
  C5_stake_reorg_cleanup C5env false C5db C5dbAfter
    [Effect.remove_new_stake_status "t1",
     Effect.remove_reward (toBeBytes 777)]
    "t1" C5st1 (by decide) (by decide) (by decide) (by decide)

/-! ## C6: zap maturity -/

theorem sset_mem {α : Type} (s : List (String × α)) (k : String)
    (v : α) (y : String × α) (hy : y ∈ sset s k v) :
    y = (k, v) ∨ y ∈ s := by
  induction s with
  | nil => simpa [sset] using hy
  | cons e rest ih =>
    by_cases h : e.1 = k
    · simp only [sset, h, if_true, List.mem_cons] at hy
      rcases hy with hy | hy
      · exact Or.inl hy
      · exact Or.inr (List.mem_cons_of_mem e hy)
    · simp only [sset, h, if_false, List.mem_cons] at hy
      rcases hy with hy | hy
      · exact Or.inr (hy ▸ List.mem_cons_self e rest)
      · rcases ih hy with hy | hy
        · exact Or.inl hy
        · exact Or.inr (List.mem_cons_of_mem e hy)

theorem sdel_mem {α : Type} (s : List (String × α)) (k : String)
    (y : String × α) (hy : y ∈ sdel s k) : y ∈ s := by
  induction s with
  | nil => simpa [sdel] using hy
  | cons e rest ih =>
    by_cases h : e.1 = k
    · simp only [sdel, h, if_true] at hy
      exact List.mem_cons_of_mem e (ih hy)
    · simp only [sdel, h, if_false, List.mem_cons] at hy
      rcases hy with hy | hy
      · exact hy ▸ List.mem_cons_self e rest
      · exact List.mem_cons_of_mem e (ih hy)

theorem sget_eq_none {α : Type} (s : List (String × α)) (k : String) :
    sget s k = none ↔ ∀ e ∈ s, e.1 ≠ k := by
  induction s with
  | nil => simp [sget]
  | cons e rest ih =>
    by_cases h : e.1 = k
    · simp [sget, h]
    · simp [sget, h, ih]

/-- Number of bot-queue writes under key `k` in an effect trace: how
many notifications the pass enqueued for that deposit. -/
def zap_staking_enqueues (effs : List Effect) (k : String) : Nat :=
  (effs.filter (fun e =>
    match e with
    | Effect.set_tg_bot_queue key _ => key = k
    | _ => false)).length

/-- Whether a durable write concerns key `k` in any of the status or
queue trees. -/
def touches_key (e : Effect) (k : String) : Bool :=
  match e with
  | Effect.set_new_stake_status key _ => key = k
  | Effect.remove_new_stake_status key => key = k
  | Effect.set_zap_status key _ => key = k
  | Effect.remove_zap_status key => key = k
  | Effect.set_tg_bot_queue key _ => key = k
  | _ => false

theorem zap_staking_enqueues_append (a b : List Effect) (k : String) :
    zap_staking_enqueues (a ++ b) k =
      zap_staking_enqueues a k + zap_staking_enqueues b k := by
  simp [zap_staking_enqueues, List.filter_append]

theorem zap_staking_enqueues_of_no_touch (l : List Effect) (k : String)
    (h : ∀ e ∈ l, touches_key e k = false) :
    zap_staking_enqueues l k = 0 := by
  induction l with
  | nil => rfl
  | cons e rest ih =>
    have he := h e (List.mem_cons_self e rest)
    have hrest := ih (fun e2 he2 => h e2 (List.mem_cons_of_mem e he2))
    cases e <;>
      simp only [touches_key, decide_eq_false_iff_not] at he <;>
      simp [zap_staking_enqueues, List.filter, he, hrest] <;>
      simpa [zap_staking_enqueues] using hrest

/-- The loop body of `process_zap_status` on a deposit whose re-fetched
confirmation count is at least 225, with the bot active: the status
record is deleted, and the "now staking" notification is enqueued under
the deposit's key exactly when none is queued there yet. -/
theorem zap_entry_matured (env : Env) (db : GVDB) (effs : List Effect)
    (k : String) (z : ZapStatusDB) (tx : TxInfo)
    (htx : env.get_transaction z.txid = some tx)
    (hconf : 225 ≤ tx.confirmations.getD 0) :
    ∃ db2 new, process_zap_entry env true (db, effs) (k, z) =
        some (db2, effs ++ new) ∧
      db2.zap_status_db = sdel db.zap_status_db k ∧
      db2.new_stake_status = db.new_stake_status ∧
      db2.rewards_ts_index = db.rewards_ts_index ∧
      zap_staking_enqueues new k =
        (if (sget db.tg_bot_queue k).isSome then 0 else 1) := by
  have hneg : ¬ tx.confirmations.getD 0 < 0 := by omega
  cases hq : sget db.tg_bot_queue k with
  | none =>
    refine ⟨{ db with
        tg_bot_queue := sset db.tg_bot_queue k
          (zap_now_staking_msg env.now z.amount),
        zap_status_db := sdel db.zap_status_db k },
      [Effect.set_tg_bot_queue k (zap_now_staking_msg env.now z.amount),
       Effect.remove_zap_status k], ?_, rfl, rfl, rfl, ?_⟩
    · simp only [process_zap_entry, htx, Option.bind_eq_bind,
        Option.some_bind, GVDB.remove_zap_status, GVDB.set_tg_bot_queue,
        GVDB.get_tg_bot_queue, hq, Option.isNone_none, if_true,
        Option.pure_def]
      rw [if_neg hneg, if_pos hconf]
      simp [List.append_assoc]
    · simp [zap_staking_enqueues, List.filter]
  | some m =>
    refine ⟨{ db with zap_status_db := sdel db.zap_status_db k },
      [Effect.remove_zap_status k], ?_, rfl, rfl, rfl, ?_⟩
    · simp only [process_zap_entry, htx, Option.bind_eq_bind,
        Option.some_bind, GVDB.remove_zap_status, GVDB.set_tg_bot_queue,
        GVDB.get_tg_bot_queue, hq, Option.isNone_some,
        Bool.false_eq_true, if_false, Option.pure_def]
      rw [if_neg hneg, if_pos hconf]
      simp
    · simp [zap_staking_enqueues, List.filter]

/-- A zap-loop iteration for a deposit stored under a different key
leaves the zap record and the queued message of key `k` unchanged and
appends only effects that do not concern `k`. -/
theorem zap_entry_other (env : Env) (db : GVDB) (effs : List Effect)
    (k2 : String) (z2 : ZapStatusDB) (db2 : GVDB) (effs2 : List Effect)
    (k : String) (hne : k2 ≠ k) (htxid : z2.txid = k2)
    (h : process_zap_entry env true (db, effs) (k2, z2) =
      some (db2, effs2)) :
    sget db2.zap_status_db k = sget db.zap_status_db k ∧
    sget db2.tg_bot_queue k = sget db.tg_bot_queue k ∧
    ∃ new, effs2 = effs ++ new ∧ ∀ e ∈ new, touches_key e k = false := by
  cases htx : env.get_transaction z2.txid with
  | none =>
    simp only [process_zap_entry, htx, Option.bind_eq_bind,
      Option.none_bind] at h
    exact absurd h (by simp)
  | some tx =>
    have htx2 : env.get_transaction k2 = some tx := by
      rw [← htxid]; exact htx
    simp only [process_zap_entry, htxid, htx2, Option.bind_eq_bind,
      Option.some_bind, GVDB.remove_zap_status, GVDB.set_zap_status,
      GVDB.set_tg_bot_queue, GVDB.get_tg_bot_queue, if_true,
      Option.pure_def] at h
    by_cases hneg : tx.confirmations.getD 0 < 0
    · rw [if_pos hneg] at h
      simp only [Option.some.injEq, Prod.mk.injEq] at h
      refine ⟨?_, ?_, ?_⟩
      · rw [← h.1]
        exact sget_sdel_other _ _ _ hne
      · rw [← h.1]
      · exact ⟨[Effect.remove_zap_status k2], h.2.symm,
          by simp [touches_key, hne]⟩
    · rw [if_neg hneg] at h
      by_cases hmat : 225 ≤ tx.confirmations.getD 0
      · rw [if_pos hmat] at h
        cases hq : sget db.tg_bot_queue k2 with
        | none =>
          rw [hq] at h
          simp only [Option.isNone_none, if_true, Option.some.injEq,
            Prod.mk.injEq] at h
          refine ⟨?_, ?_, ?_⟩
          · rw [← h.1]
            exact sget_sdel_other _ _ _ hne
          · rw [← h.1]
            exact sget_sset_other _ _ _ _ hne
          · refine ⟨[Effect.set_tg_bot_queue k2
                (zap_now_staking_msg env.now z2.amount),
              Effect.remove_zap_status k2], ?_,
              by simp [touches_key, hne]⟩
            rw [← h.2]
            simp
        | some m =>
          rw [hq] at h
          simp only [Option.isNone_some, Bool.false_eq_true, if_false,
            Option.some.injEq, Prod.mk.injEq] at h
          refine ⟨?_, ?_, ?_⟩
          · rw [← h.1]
            exact sget_sdel_other _ _ _ hne
          · rw [← h.1]
          · refine ⟨[Effect.remove_zap_status k2], ?_,
              by simp [touches_key, hne]⟩
            rw [← h.2]
            simp
      · rw [if_neg hmat] at h
        by_cases hfn :
            (!z2.first_notice && !(sget db.tg_bot_queue k2).isSome)
              = true
        · rw [if_pos hfn] at h
          simp only [Option.some.injEq, Prod.mk.injEq] at h
          refine ⟨?_, ?_, ?_⟩
          · rw [← h.1]
            rw [sget_sset_other _ _ _ _ hne, sget_sset_other _ _ _ _ hne]
          · rw [← h.1]
            exact sget_sset_other _ _ _ _ hne
          · refine ⟨_, h.2.symm, ?_⟩
            simp [touches_key, hne]
        · rw [if_neg hfn] at h
          simp only [Option.some.injEq, Prod.mk.injEq] at h
          refine ⟨?_, ?_, ?_⟩
          · rw [← h.1]
            exact sget_sset_other _ _ _ _ hne
          · rw [← h.1]
          · refine ⟨_, h.2.symm, ?_⟩
            simp [touches_key, hne]

/-- A zap-loop iteration preserves the "keyed by txid" shape of the
zap tree. -/
theorem zap_entry_keys (env : Env) (db : GVDB) (effs : List Effect)
    (k2 : String) (z2 : ZapStatusDB) (db2 : GVDB) (effs2 : List Effect)
    (htxid : z2.txid = k2)
    (hdb : ∀ e ∈ db.zap_status_db, e.2.txid = e.1)
    (h : process_zap_entry env true (db, effs) (k2, z2) =
      some (db2, effs2)) :
    ∀ e ∈ db2.zap_status_db, e.2.txid = e.1 := by
  cases htx : env.get_transaction z2.txid with
  | none =>
    simp only [process_zap_entry, htx, Option.bind_eq_bind,
      Option.none_bind] at h
    exact absurd h (by simp)
  | some tx =>
    have htx2 : env.get_transaction k2 = some tx := by
      rw [← htxid]; exact htx
    simp only [process_zap_entry, htxid, htx2, Option.bind_eq_bind,
      Option.some_bind, GVDB.remove_zap_status, GVDB.set_zap_status,
      GVDB.set_tg_bot_queue, GVDB.get_tg_bot_queue, if_true,
      Option.pure_def] at h
    by_cases hneg : tx.confirmations.getD 0 < 0
    · rw [if_pos hneg] at h
      simp only [Option.some.injEq, Prod.mk.injEq] at h
      intro e he
      rw [← h.1] at he
      exact hdb e (sdel_mem _ _ _ he)
    · rw [if_neg hneg] at h
      by_cases hmat : 225 ≤ tx.confirmations.getD 0
      · rw [if_pos hmat] at h
        cases hq : sget db.tg_bot_queue k2 with
        | none =>
          rw [hq] at h
          simp only [Option.isNone_none, if_true, Option.some.injEq,
            Prod.mk.injEq] at h
          intro e he
          rw [← h.1] at he
          exact hdb e (sdel_mem _ _ _ he)
        | some m =>
          rw [hq] at h
          simp only [Option.isNone_some, Bool.false_eq_true, if_false,
            Option.some.injEq, Prod.mk.injEq] at h
          intro e he
          rw [← h.1] at he
          exact hdb e (sdel_mem _ _ _ he)
      · rw [if_neg hmat] at h
        by_cases hfn :
            (!z2.first_notice && !(sget db.tg_bot_queue k2).isSome)
              = true
        · rw [if_pos hfn] at h
          simp only [Option.some.injEq, Prod.mk.injEq] at h
          intro e he
          rw [← h.1] at he
          rcases sset_mem _ _ _ _ he with he2 | he2
          · rw [he2]
          · rcases sset_mem _ _ _ _ he2 with he3 | he3
            · rw [he3]
            · exact hdb e he3
        · rw [if_neg hfn] at h
          simp only [Option.some.injEq, Prod.mk.injEq] at h
          intro e he
          rw [← h.1] at he
          rcases sset_mem _ _ _ _ he with he2 | he2
          · rw [he2]
          · exact hdb e he2

/-- Frame of a full `process_zap_status` pass over entries that do not
carry key `k`. -/
theorem zap_pass_frame (env : Env) (k : String) :
    ∀ (l : List (String × ZapStatusDB)) (db : GVDB)
      (effs : List Effect) (res : GVDB × List Effect),
    (∀ e ∈ l, e.1 ≠ k ∧ e.2.txid = e.1) →
    l.foldlM (process_zap_entry env true) (db, effs) = some res →
    sget res.1.zap_status_db k = sget db.zap_status_db k ∧
    sget res.1.tg_bot_queue k = sget db.tg_bot_queue k ∧
    ∃ new, res.2 = effs ++ new ∧ ∀ e ∈ new, touches_key e k = false := by
  intro l
  induction l with
  | nil =>
    intro db effs res _ h
    simp only [List.foldlM_nil, Option.pure_def, Option.some.injEq] at h
    rw [← h]
    exact ⟨rfl, rfl, [], by simp, by simp⟩
  | cons e rest ih =>
    intro db effs res hl h
    simp only [List.foldlM_cons, Option.bind_eq_bind] at h
    rcases Option.bind_eq_some.mp h with ⟨acc1, hstep, hrest⟩
    obtain ⟨db1, effs1⟩ := acc1
    obtain ⟨ke, ze⟩ := e
    have hhead := hl (ke, ze) (List.mem_cons_self _ _)
    obtain ⟨p1, p2, new1, hnew1, hnt1⟩ :=
      zap_entry_other env db effs ke ze db1 effs1 k hhead.1 hhead.2
        hstep
    obtain ⟨q1, q2, new2, hnew2, hnt2⟩ := ih db1 effs1 res
      (fun e2 he2 => hl e2 (List.mem_cons_of_mem _ he2)) hrest
    refine ⟨q1.trans p1, q2.trans p2, new1 ++ new2, ?_, ?_⟩
    · rw [hnew2, hnew1, List.append_assoc]
    · intro e2 he2
      rcases List.mem_append.mp he2 with he2 | he2
      · exact hnt1 e2 he2
      · exact hnt2 e2 he2

/-- A full zap pass preserves the "keyed by txid" shape. -/
theorem zap_pass_keys (env : Env) :
    ∀ (l : List (String × ZapStatusDB)) (db : GVDB)
      (effs : List Effect) (res : GVDB × List Effect),
    (∀ e ∈ l, e.2.txid = e.1) →
    (∀ e ∈ db.zap_status_db, e.2.txid = e.1) →
    l.foldlM (process_zap_entry env true) (db, effs) = some res →
    ∀ e ∈ res.1.zap_status_db, e.2.txid = e.1 := by
  intro l
  induction l with
  | nil =>
    intro db effs res _ hdb h
    simp only [List.foldlM_nil, Option.pure_def, Option.some.injEq] at h
    rw [← h]
    exact hdb
  | cons e rest ih =>
    intro db effs res hl hdb h
    simp only [List.foldlM_cons, Option.bind_eq_bind] at h
    rcases Option.bind_eq_some.mp h with ⟨acc1, hstep, hrest⟩
    obtain ⟨db1, effs1⟩ := acc1
    obtain ⟨ke, ze⟩ := e
    exact ih db1 effs1 res
      (fun e2 he2 => hl e2 (List.mem_cons_of_mem _ he2))
      (zap_entry_keys env db effs ke ze db1 effs1
        (hl (ke, ze) (List.mem_cons_self _ _)) hdb hstep) hrest

/-- C6: a tracked deposit whose re-fetched confirmation count reaches
225 during one zap-reconciliation pass has its status record deleted
and exactly one "now staking" notification enqueued under its key (none
when one is already queued); a subsequent pass, the record being
absent, enqueues nothing and performs no write concerning that
deposit. -/
theorem C6_zap_maturity (env : Env) (db db' : GVDB)
    (effs : List Effect) (k : String) (z : ZapStatusDB) (tx : TxInfo)
    (hkeys : ∀ e ∈ db.zap_status_db, e.2.txid = e.1)
    (hnd : (db.zap_status_db.map Prod.fst).Nodup)
    (hmem : (k, z) ∈ db.zap_status_db)
    (htx : env.get_transaction z.txid = some tx)
    (hconf : 225 ≤ tx.confirmations.getD 0)
    (h : process_zap_status env true db = some (db', effs)) :
    sget db'.zap_status_db k = none ∧
    zap_staking_enqueues effs k =
      (if (sget db.tg_bot_queue k).isSome then 0 else 1) ∧
    (∀ db'' effs2,
      process_zap_status env true db' = some (db'', effs2) →
      sget db''.zap_status_db k = none ∧
      ∀ e ∈ effs2, touches_key e k = false) := by
  have h0 : db.zap_status_db.foldlM (process_zap_entry env true)
      (db, ([] : List Effect)) = some (db', effs) := h
  have hkeys' : ∀ e ∈ db'.zap_status_db, e.2.txid = e.1 :=
    zap_pass_keys env db.zap_status_db db [] (db', effs) hkeys hkeys h0
  obtain ⟨l1, l2, hsplit⟩ := List.append_of_mem hmem
  have hnd2 := hnd
  rw [hsplit, List.map_append, List.map_cons] at hnd2
  rw [List.nodup_append] at hnd2
  have hkl1 : ∀ e ∈ l1, e.1 ≠ k := by
    intro e he hek
    have : k ∈ l1.map Prod.fst := by
      rw [← hek]
      exact List.mem_map_of_mem Prod.fst he
    exact hnd2.2.2 this (List.mem_cons_self _ _)
  have hkl2 : ∀ e ∈ l2, e.1 ≠ k := by
    intro e he hek
    have hk2 : k ∉ List.map Prod.fst l2 := by
      have hx := (List.nodup_cons.mp hnd2.2.1).1
      simpa using hx
    exact hk2 (hek ▸ List.mem_map_of_mem Prod.fst he)
  have hmeml1 : ∀ e ∈ l1, e ∈ db.zap_status_db := by
    intro e he
    rw [hsplit]
    exact List.mem_append_left _ he
  have hmeml2 : ∀ e ∈ l2, e ∈ db.zap_status_db := by
    intro e he
    rw [hsplit]
    exact List.mem_append_right _ (List.mem_cons_of_mem _ he)
  have h1 := h0
  rw [hsplit, List.foldlM_append] at h1
  rcases Option.bind_eq_some.mp h1 with ⟨accA, hA, hrest0⟩
  obtain ⟨dbA, effsA⟩ := accA
  simp only [List.foldlM_cons, Option.bind_eq_bind] at hrest0
  rcases Option.bind_eq_some.mp hrest0 with ⟨accB, hB, hC⟩
  obtain ⟨pA1, pA2, newA, hnewA, hntA⟩ := zap_pass_frame env k l1 db
    [] (dbA, effsA) (fun e he => ⟨hkl1 e he, hkeys e (hmeml1 e he)⟩) hA
  obtain ⟨db2, new, hrun, hz2, _, _, hcount⟩ :=
    zap_entry_matured env dbA effsA k z tx htx hconf
  rw [hrun] at hB
  have haccB : accB = (db2, effsA ++ new) := (Option.some.inj hB).symm
  rw [haccB] at hC
  obtain ⟨pC1, _, newC, hnewC, hntC⟩ := zap_pass_frame env k l2 db2
    (effsA ++ new) (db', effs)
    (fun e he => ⟨hkl2 e he, hkeys e (hmeml2 e he)⟩) hC
  have hzget : sget db'.zap_status_db k = none := by
    rw [pC1, hz2, sget_sdel_same]
  refine ⟨hzget, ?_, ?_⟩
  · have heffs : effs = (effsA ++ new) ++ newC := hnewC
    rw [heffs, zap_staking_enqueues_append, zap_staking_enqueues_append]
    rw [zap_staking_enqueues_of_no_touch newC k hntC]
    have heffsA : zap_staking_enqueues effsA k = 0 := by
      have heA : effsA = newA := by
        have hx : effsA = [] ++ newA := hnewA
        simpa using hx
      rw [heA]
      exact zap_staking_enqueues_of_no_touch _ k hntA
    rw [heffsA, hcount, ← pA2]
    simp
  · intro db'' effs2 h2
    have h2f : db'.zap_status_db.foldlM (process_zap_entry env true)
        (db', ([] : List Effect)) = some (db'', effs2) := h2
    have hkall : ∀ e ∈ db'.zap_status_db, e.1 ≠ k ∧ e.2.txid = e.1 := by
      intro e he
      refine ⟨?_, hkeys' e he⟩
      exact (sget_eq_none db'.zap_status_db k).mp hzget e he
    obtain ⟨q1, _, new2, hnew2, hnt2⟩ := zap_pass_frame env k
      db'.zap_status_db db' [] (db'', effs2) hkall h2f
    refine ⟨by rw [q1, hzget], ?_⟩
    intro e he
    apply hnt2
    have h2e : effs2 = new2 := by simpa using hnew2
    rw [h2e] at he
    exact he

/-- C6 witness data: one tracked deposit, re-fetched at exactly 225
confirmations, no message queued yet. -/
def C6z : ZapStatusDB :=
  { txid := "zt", amount := 100, confirmations := 10,
    first_notice := true }

def C6tx : TxInfo :=
  { txid := "zt", blocktime := 0, blockheight := 0, blockhash := "",
    confirmations := some 225, details := [],
    decoded := { vin := [], vout := [] } }

def C6env : Env :=
  { get_transaction := fun t => if t = "zt" then some C6tx else none,
    getblock_height := fun _ => none, is_syncing := some false,
    now := 7777 }

def C6db : GVDB :=
  { rewards_ts_index := [], new_stake_status := [],
    zap_status_db := [("zt", C6z)], tg_bot_queue := [],
    daemon_status_db := none }

def C6dbAfter : GVDB :=
  { rewards_ts_index := [], new_stake_status := [],
    zap_status_db := [],
    tg_bot_queue := [("zt", zap_now_staking_msg 7777 100)],
    daemon_status_db := none }

def C6effs : List Effect :=
  [Effect.set_tg_bot_queue "zt" (zap_now_staking_msg 7777 100),
   Effect.remove_zap_status "zt"]

theorem C6_witness :
    sget C6dbAfter.zap_status_db "zt" = none ∧
    zap_staking_enqueues C6effs "zt" =
      (if (sget C6db.tg_bot_queue "zt").isSome then 0 else 1) ∧
    (∀ db'' effs2,
      process_zap_status C6env true C6dbAfter = some (db'', effs2) →
      sget db''.zap_status_db "zt" = none ∧
      ∀ e ∈ effs2, touches_key e "zt" = false) :=
  C6_zap_maturity C6env C6db C6dbAfter C6effs "zt" C6z C6tx
    (by decide) (by decide) (by decide) (by decide) (by decide)
    (by decide)

/-! ## C7: payout batching -/

/-- Shape of the fee-check log a batching run produces: every check
except possibly the final one happens at a multiple of 100 accumulated
inputs and commits exactly when the estimated fee reaches the ceiling;
the final check (made at the last unspent item) always commits when the
fee reaches the ceiling (and may also commit below it, to flush the
remainder). -/
def good_log (max_fee : Rat) : List FeeCheck → Prop
  | [] => True
  | [e] => max_fee ≤ e.fee → e.committed = true
  | e :: rest => e.inputs.length % 100 = 0 ∧
      e.committed = decide (max_fee ≤ e.fee) ∧ good_log max_fee rest

theorem good_log_cons (max_fee : Rat) (e : FeeCheck)
    (rest : List FeeCheck) (h1 : e.inputs.length % 100 = 0)
    (h2 : e.committed = decide (max_fee ≤ e.fee))
    (h3 : good_log max_fee rest) : good_log max_fee (e :: rest) := by
  cases rest with
  | nil =>
    intro hle
    rw [h2]
    simp [hle]
  | cons f fs => exact ⟨h1, h2, h3⟩

theorem good_log_commit_on_ceiling (max_fee : Rat) :
    ∀ (l : List FeeCheck), good_log max_fee l →
    ∀ e ∈ l, max_fee ≤ e.fee → e.committed = true := by
  intro l
  induction l with
  | nil => intro _ e he; simp at he
  | cons f fs ih =>
    intro hg e he hle
    cases fs with
    | nil =>
      simp only [List.mem_singleton] at he
      rw [he]
      exact hg (he ▸ hle)
    | cons g gs =>
      obtain ⟨_, h2, h3⟩ := hg
      rcases List.mem_cons.mp he with he | he
      · rw [he, h2]
        simp [he ▸ hle]
      · exact ih h3 e he hle

/-- The batching loop appends to the accumulators, produces one
transaction per committed fee check, and its fee-check log has the
`good_log` shape. -/
theorem send_loop_spec (env : SendEnv) (in_type : String)
    (max_fee : Rat) :
    ∀ (items : List Unspent) (inputs : List (String × Nat)) (amt : Rat)
      (txids0 : List String) (log0 : List FeeCheck)
      (txids : List String) (log : List FeeCheck),
    send_loop env in_type max_fee items inputs amt txids0 log0 =
      some (txids, log) →
    ∃ nt nl, txids = txids0 ++ nt ∧ log = log0 ++ nl ∧
      nt.length = (nl.filter (·.committed)).length ∧
      good_log max_fee nl := by
  intro items
  induction items with
  | nil =>
    intro inputs amt txids0 log0 txids log h
    simp only [send_loop, Option.some.injEq, Prod.mk.injEq] at h
    exact ⟨[], [], by simp [← h.1], by simp [← h.2], rfl, trivial⟩
  | cons item rest ih =>
    intro inputs amt txids0 log0 txids log h
    rw [send_loop] at h
    by_cases hc1 :
        (push_spendable in_type item inputs amt).1.isEmpty = true
    · rw [if_pos hc1] at h
      exact ih _ _ _ _ _ _ h
    · rw [if_neg hc1] at h
      by_cases hc2 :
          (decide ((push_spendable in_type item inputs amt).1.length
            % 100 = 0) || rest.isEmpty) = true
      · rw [if_pos hc2] at h
        simp only [Option.bind_eq_bind] at h
        rcases Option.bind_eq_some.mp h with ⟨fee, hfee, h⟩
        by_cases hc3 : (decide (max_fee ≤ fee) || rest.isEmpty) = true
        · rw [if_pos hc3] at h
          rcases Option.bind_eq_some.mp h with ⟨txid, htxid, h⟩
          obtain ⟨nt, nl, h1, h2, h3, h4⟩ := ih _ _ _ _ _ _ h
          refine ⟨txid :: nt,
            ⟨(push_spendable in_type item inputs amt).1, fee, true⟩
              :: nl, ?_, ?_, ?_, ?_⟩
          · rw [h1]
            simp
          · rw [h2]
            simp
          · simp only [List.filter, List.length_cons]
            rw [h3]
          · cases hre : rest with
            | nil =>
              rw [hre] at h
              simp only [send_loop, Option.some.injEq,
                Prod.mk.injEq] at h
              have hnl : nl = [] := by
                have := h.2
                rw [h2] at this
                simpa using this
              rw [hnl]
              intro _
              rfl
            | cons r rs =>
              have hlastf : rest.isEmpty = false := by rw [hre]; rfl
              rw [hlastf] at hc2 hc3
              simp only [Bool.or_false, decide_eq_true_eq] at hc2 hc3
              exact good_log_cons _ _ _ hc2 (by simp [hc3]) h4
        · rw [if_neg hc3] at h
          obtain ⟨nt, nl, h1, h2, h3, h4⟩ := ih _ _ _ _ _ _ h
          have hnc : ¬ max_fee ≤ fee ∧ rest.isEmpty = false := by
            constructor
            · intro hle
              exact hc3 (by simp [hle])
            · cases hb : rest.isEmpty
              · rfl
              · exact absurd (by simp [hb]) hc3
          rw [hnc.2] at hc2
          simp only [Bool.or_false, decide_eq_true_eq] at hc2
          refine ⟨nt,
            ⟨(push_spendable in_type item inputs amt).1, fee, false⟩
              :: nl, h1, ?_, ?_, ?_⟩
          · rw [h2]
            simp
          · simp only [List.filter, List.length_cons]
            rw [h3]
          · exact good_log_cons _ _ _ hc2 (by simp [hnc.1]) h4
      · rw [if_neg hc2] at h
        exact ih _ _ _ _ _ _ h

/-- C7 (amended): both payout flows (plain send and aggregated zap) run
the same batching loop: the fee is estimated every 100 accumulated
inputs and at the last unspent item; a batch is committed exactly when
the estimated fee reaches the 0.25 GHOST ceiling or the items are
exhausted (so the ceiling triggers a commit rather than preventing
one, and committed batches can exceed 100 inputs); each flow can
produce several transactions, one per committed fee check. -/
theorem C7_payout_batching (env : SendEnv) (in_type : String)
    (bs : Option String) (txids : List String) (log : List FeeCheck)
    (txids2 : List String) (log2 : List FeeCheck)
    (h1 : send_ghost env in_type = some (txids, log))
    (h2 : zap_ghost env bs in_type = some (txids2, log2)) :
    (txids.length = (log.filter (·.committed)).length ∧
     good_log (convert_from_sat MAX_TX_FEES) log ∧
     (∀ e ∈ log, convert_from_sat MAX_TX_FEES ≤ e.fee →
        e.committed = true)) ∧
    (txids2.length = (log2.filter (·.committed)).length ∧
     good_log (convert_from_sat MAX_TX_FEES) log2 ∧
     (∀ e ∈ log2, convert_from_sat MAX_TX_FEES ≤ e.fee →
        e.committed = true)) := by
  constructor
  · cases hu : env.list_unspent with
    | none =>
      rw [send_ghost, hu] at h1
      simp at h1
    | some us =>
      rw [send_ghost, hu] at h1
      simp only [Option.bind_eq_bind, Option.some_bind] at h1
      obtain ⟨nt, nl, e1, e2, e3, e4⟩ :=
        send_loop_spec env in_type _ us [] 0 [] [] txids log h1
      rw [e1, e2]
      simp only [List.nil_append]
      exact ⟨e3, e4, good_log_commit_on_ceiling _ nl e4⟩
  · cases hbs : bs with
    | none =>
      rw [zap_ghost, hbs] at h2
      simp at h2
    | some s =>
      cases hu : env.list_unspent with
      | none =>
        rw [zap_ghost, hbs, hu] at h2
        simp at h2
      | some us =>
        rw [zap_ghost, hbs, hu] at h2
        simp only [Option.bind_eq_bind, Option.some_bind] at h2
        obtain ⟨nt, nl, e1, e2, e3, e4⟩ :=
          send_loop_spec env in_type _ us [] 0 [] [] txids2 log2 h2
        rw [e1, e2]
        simp only [List.nil_append]
        exact ⟨e3, e4, good_log_commit_on_ceiling _ nl e4⟩

/-- C7 scenario: 101 identical spendable unspent outputs; the dry-run
fee estimate is always 1 GHOST, well above the 0.25 GHOST ceiling. -/
def C7item : Unspent :=
  { amount := 2, txid := "u", vout := 0, safe := true,
    spendable := true }

def C7env : SendEnv :=
  { list_unspent := some (List.replicate 101 C7item),
    estimate_fee := fun _ _ => some 1,
    commit_tx := fun ins _ =>
      some (if ins.length = 100 then "T1" else "T2") }

def C7ins100 : List (String × Nat) := List.replicate 100 ("u", 0)

def C7log : List FeeCheck :=
  [⟨C7ins100, 1, true⟩, ⟨[("u", 0)], 1, true⟩]

theorem push_spendable_fst (t : String) (item : Unspent)
    (inputs : List (String × Nat)) (a a' : Rat) :
    (push_spendable t item inputs a).1 =
      (push_spendable t item inputs a').1 := by
  rw [push_spendable, push_spendable]
  by_cases h :
      (if t = "ghost" then item.safe && item.spendable
        else item.safe) = true
  · rw [if_pos h, if_pos h]
  · rw [if_neg h, if_neg h]

theorem C7_push (inputs : List (String × Nat)) (amt : Rat) :
    push_spendable "ghost" C7item inputs amt =
      (inputs ++ [("u", 0)], amt + 2) := by
  rw [push_spendable]
  simp [C7item]

/-- For the C7 environment (whose fee and commit oracles ignore the
amount) the loop's result does not depend on the accumulated amount. -/
theorem C7_amt_irrel :
    ∀ (items : List Unspent) (inputs : List (String × Nat))
      (amt amt' : Rat) (txids : List String) (log : List FeeCheck),
    send_loop C7env "ghost" (convert_from_sat MAX_TX_FEES) items
      inputs amt txids log =
    send_loop C7env "ghost" (convert_from_sat MAX_TX_FEES) items
      inputs amt' txids log := by
  intro items
  induction items with
  | nil => intro _ _ _ _ _; rfl
  | cons item rest ih =>
    intro inputs amt amt' txids log
    rw [send_loop, send_loop,
      push_spendable_fst "ghost" item inputs amt amt']
    by_cases hc1 :
        (push_spendable "ghost" item inputs amt').1.isEmpty = true
    · rw [if_pos hc1, if_pos hc1]
      exact ih _ _ _ _ _
    · rw [if_neg hc1, if_neg hc1]
      by_cases hc2 :
          (decide ((push_spendable "ghost" item inputs amt').1.length
            % 100 = 0) || rest.isEmpty) = true
      · rw [if_pos hc2, if_pos hc2]
        simp only [C7env, Option.bind_eq_bind, Option.some_bind]
        by_cases hc3 :
            (decide (convert_from_sat MAX_TX_FEES ≤ 1)
              || rest.isEmpty) = true
        · rw [if_pos hc3, if_pos hc3]
        · rw [if_neg hc3, if_neg hc3]
          exact ih _ _ _ _ _
      · rw [if_neg hc2, if_neg hc2]
        exact ih _ _ _ _ _

/-- Peeling the first `n` of `n + 2` identical spendable items: while
fewer than 100 inputs have accumulated no fee check happens and the
batch just grows. -/
theorem C7_skip :
    ∀ (n : Nat) (inputs : List (String × Nat)) (amt : Rat),
    inputs.length + n = 99 →
    send_loop C7env "ghost" (convert_from_sat MAX_TX_FEES)
      (List.replicate (n + 2) C7item) inputs amt [] [] =
    send_loop C7env "ghost" (convert_from_sat MAX_TX_FEES)
      (List.replicate 2 C7item)
      (inputs ++ List.replicate n ("u", 0)) 0 [] [] := by
  intro n
  induction n with
  | zero =>
    intro inputs amt h
    simp only [Nat.zero_add, List.replicate_zero, List.append_nil]
    exact C7_amt_irrel _ _ amt 0 _ _
  | succ m ih =>
    intro inputs amt h
    rw [show m + 1 + 2 = (m + 2) + 1 from by omega,
      List.replicate_succ, send_loop, C7_push]
    have hne : ¬ ((inputs ++ [("u", 0)], amt + 2)).1.isEmpty = true := by
      simp
    rw [if_neg hne]
    have hcond :
        ¬ (decide (((inputs ++ [("u", 0)], amt + 2)).1.length % 100 = 0)
          || (List.replicate (m + 2) C7item).isEmpty) = true := by
      have hlen :
          ((inputs ++ [("u", 0)], amt + 2)).1.length = 99 - m := by
        simp only [List.length_append, List.length_singleton]
        omega
      rw [hlen]
      have h2 : ¬ (99 - m) % 100 = 0 := by
        have := Nat.mod_eq_of_lt (show 99 - m < 100 by omega)
        omega
      simp [h2, List.replicate_succ]
    rw [if_neg hcond]
    have hstep := ih (inputs ++ [("u", 0)]) (amt + 2)
      (by simp only [List.length_append, List.length_singleton]; omega)
    rw [List.append_assoc, List.singleton_append,
      ← List.replicate_succ] at hstep
    exact hstep

theorem C7_mf_le : convert_from_sat MAX_TX_FEES ≤ (1 : Rat) := by
  rw [convert_from_sat, MAX_TX_FEES]
  norm_num

/-- The concrete run of the last two items: the 100th input triggers a
fee check, the fee (1) busts the ceiling and the batch is committed;
the remaining single input is committed at the final item. -/
theorem C7_final :
    send_loop C7env "ghost" (convert_from_sat MAX_TX_FEES)
      (List.replicate 2 C7item) (List.replicate 99 ("u", 0)) 0 [] [] =
    some (["T1", "T2"], C7log) := by
  rw [show List.replicate 2 C7item = [C7item, C7item] from rfl,
    send_loop, C7_push]
  have hne1 :
      ¬ ((List.replicate 99 ("u", 0) ++ [("u", 0)], (0 : Rat) + 2)).1.isEmpty
        = true := by
    simp
  rw [if_neg hne1]
  have hrep :
      List.replicate 99 ("u", 0) ++ [("u", 0)] =
        List.replicate 100 (("u", 0) : String × Nat) := by
    rw [← List.replicate_succ']
  have hcond1 :
      (decide ((List.replicate 99 ("u", 0) ++ [("u", 0)],
          (0 : Rat) + 2).1.length % 100 = 0)
        || ([C7item] : List Unspent).isEmpty) = true := by
    simp
  rw [if_pos hcond1]
  simp only [C7env, Option.bind_eq_bind, Option.some_bind]
  have hcond2 :
      (decide (convert_from_sat MAX_TX_FEES ≤ 1)
        || ([C7item] : List Unspent).isEmpty) = true := by
    rw [decide_eq_true C7_mf_le]
    rfl
  rw [if_pos hcond2]
  have hT1 : (if (List.replicate 99 ("u", 0) ++ [("u", 0)],
      (0 : Rat) + 2).1.length = 100 then "T1" else "T2") = "T1" := by
    simp
  rw [hT1, send_loop, C7_push]
  have hne2 : ¬ (([] ++ [("u", 0)], (0 : Rat) + 2)).1.isEmpty = true := by
    simp
  rw [if_neg hne2]
  have hcond3 :
      (decide (([] ++ [("u", 0)], (0 : Rat) + 2).1.length % 100 = 0)
        || ([] : List Unspent).isEmpty) = true := by
    simp
  rw [if_pos hcond3]
  simp only [Option.bind_eq_bind, Option.some_bind]
  have hcond4 :
      (decide (convert_from_sat MAX_TX_FEES ≤ 1)
        || ([] : List Unspent).isEmpty) = true := by
    simp
  rw [if_pos hcond4]
  have hT2 : (if (([] : List (String × Nat)) ++ [("u", 0)],
      (0 : Rat) + 2).1.length = 100 then "T1" else "T2") = "T2" := by
    simp
  rw [hT2, send_loop]
  rw [C7log, C7ins100, ← hrep]
  simp

/-- Full evaluation of the batching loop on the 101 unspent outputs. -/
theorem C7_loop_eval :
    send_loop C7env "ghost" (convert_from_sat MAX_TX_FEES)
      (List.replicate 101 C7item) [] 0 [] [] =
    some (["T1", "T2"], C7log) := by
  have h := C7_skip 99 [] 0 (by decide)
  rw [List.nil_append] at h
  exact h.trans C7_final

theorem C7_send_eval :
    send_ghost C7env "ghost" = some (["T1", "T2"], C7log) := by
  rw [send_ghost]
  simp only [C7env, Option.bind_eq_bind, Option.some_bind]
  exact C7_loop_eval

theorem C7_zap_eval :
    zap_ghost C7env (some "hex") "ghost" =
      some (["T1", "T2"], C7log) := by
  rw [zap_ghost]
  simp only [C7env, Option.bind_eq_bind, Option.some_bind]
  exact C7_loop_eval

/-- C7 counterexample: at the 100-input fee check the estimated fee
(1 GHOST) exceeds the 0.25 GHOST ceiling, and the code COMMITS that
batch (first log entry, committed = true) and then commits the
remainder separately — the claim that a fee above the ceiling prevents
the commit and re-batches is false. -/
theorem C7_counterexample :
    send_ghost C7env "ghost" = some (["T1", "T2"], C7log) ∧
    C7log.head? = some ⟨C7ins100, 1, true⟩ ∧
    convert_from_sat MAX_TX_FEES ≤ (1 : Rat) ∧
    C7log.length = 2 :=
  ⟨C7_send_eval, rfl, C7_mf_le, rfl⟩

/-- C7 witness: the amended batching statement evaluated on the
concrete 101-output scenario, for both payout flows. -/
theorem C7_witness :
    ((["T1", "T2"] : List String).length =
      (C7log.filter (·.committed)).length ∧
     good_log (convert_from_sat MAX_TX_FEES) C7log ∧
     (∀ e ∈ C7log, convert_from_sat MAX_TX_FEES ≤ e.fee →
        e.committed = true)) ∧
    ((["T1", "T2"] : List String).length =
      (C7log.filter (·.committed)).length ∧
     good_log (convert_from_sat MAX_TX_FEES) C7log ∧
     (∀ e ∈ C7log, convert_from_sat MAX_TX_FEES ≤ e.fee →
        e.committed = true)) :=
  C7_payout_batching C7env "ghost" (some "hex") ["T1", "T2"] C7log
    ["T1", "T2"] C7log C7_send_eval C7_zap_eval

end GhostVault
